import Mathlib

/-!
The nfsclient plugin: the mountstats scanner and its stat decoder

A shallow embedding of `plugins/inputs/nfsclient/nfsclient.go`.

* Go strings are `String`; a tokenised line (the result of `strings.Fields`
  on one scanned line) is a `List String`.
* `int64` values are `Int`s kept in the range `[-2^63, 2^63)`; the two places
  where the source does arithmetic on them wrap explicitly (`sub64`, `add64`).
* A Go map `map[string]interface{}` is an association list with unique keys,
  in order of first insertion (`setField`).
* A runtime panic (index or slice bound out of range) is `Except.error`.
* The accumulator is the list of `AddFields` calls, each one holding the
  contents of the field map at the moment of the call.
-/

namespace Nfsclient

/-! ## Field tables (source lines 43 to 201) -/

def eventsFields : List String :=
  ["inoderevalidates", "dentryrevalidates", "datainvalidates", "attrinvalidates",
   "vfsopen", "vfslookup", "vfspermission", "vfsupdatepage", "vfsreadpage",
   "vfsreadpages", "vfswritepage", "vfswritepages", "vfsreaddir", "vfssetattr",
   "vfsflush", "vfsfsync", "vfslock", "vfsrelease", "congestionwait",
   "setattrtrunc", "extendwrite", "sillyrenames", "shortreads", "shortwrites",
   "delay", "pnfsreads", "pnfswrites"]

def bytesFields : List String :=
  ["normalreadbytes", "normalwritebytes", "directreadbytes", "directwritebytes",
   "serverreadbytes", "serverwritebytes", "readpages", "writepages"]

def xprtudpFields : List String :=
  ["bind_count", "rpcsends", "rpcreceives", "badxids", "inflightsends", "backlogutil"]

def xprttcpFields : List String :=
  ["bind_count", "connect_count", "connect_time", "idle_time", "rpcsends",
   "rpcreceives", "badxids", "inflightsends", "backlogutil"]

def nfs3Fields : List String :=
  ["NULL", "GETATTR", "SETATTR", "LOOKUP", "ACCESS", "READLINK", "READ", "WRITE",
   "CREATE", "MKDIR", "SYMLINK", "MKNOD", "REMOVE", "RMDIR", "RENAME", "LINK",
   "READDIR", "READDIRPLUS", "FSSTAT", "FSINFO", "PATHCONF", "COMMIT"]

def nfs4Fields : List String :=
  ["NULL", "READ", "WRITE", "COMMIT", "OPEN", "OPEN_CONFIRM", "OPEN_NOATTR",
   "OPEN_DOWNGRADE", "CLOSE", "SETATTR", "FSINFO", "RENEW", "SETCLIENTID",
   "SETCLIENTID_CONFIRM", "LOCK", "LOCKT", "LOCKU", "ACCESS", "GETATTR", "LOOKUP",
   "LOOKUP_ROOT", "REMOVE", "RENAME", "LINK", "SYMLINK", "CREATE", "PATHCONF",
   "STATFS", "READLINK", "READDIR", "SERVER_CAPS", "DELEGRETURN", "GETACL",
   "SETACL", "FS_LOCATIONS", "RELEASE_LOCKOWNER", "SECINFO", "FSID_PRESENT",
   "EXCHANGE_ID", "CREATE_SESSION", "DESTROY_SESSION", "SEQUENCE",
   "GET_LEASE_TIME", "RECLAIM_COMPLETE", "LAYOUTGET", "GETDEVICEINFO",
   "LAYOUTCOMMIT", "LAYOUTRETURN", "SECINFO_NO_NAME", "TEST_STATEID",
   "FREE_STATEID", "GETDEVICELIST", "BIND_CONN_TO_SESSION", "DESTROY_CLIENTID",
   "SEEK", "ALLOCATE", "DEALLOCATE", "LAYOUTSTATS", "CLONE"]

def nfsopFields : List String :=
  ["ops", "trans", "timeouts", "bytes_sent", "bytes_recv", "queue_time",
   "response_time", "total_time"]

/-! ## Go runtime and standard library pieces used by the source -/

/-- Go slice indexing `xs[i]`: a value, or the runtime panic. -/
def index {α : Type} (xs : List α) (i : Nat) : Except String α :=
  match xs[i]? with
  | some v => .ok v
  | none => .error "index out of range"

/-- The two error kinds of `strconv`. -/
inductive NumError where
  | malformed
  | outOfRange
  deriving DecidableEq, Repr

/-- Largest `uint64`. -/
def maxUint64 : Nat := 2 ^ 64 - 1

/-- The digit loop of `strconv.ParseUint(s, 10, 64)`: it stops with a range
error at the first overflow, before looking at the remaining bytes. -/
def parseUintLoop : List Char → Nat → Nat × Option NumError
  | [], n => (n, none)
  | c :: cs, n =>
    if c.isDigit then
      if n ≥ maxUint64 / 10 + 1 then (maxUint64, some .outOfRange)
      else
        let n1 := n * 10 + (c.toNat - 48)
        if n1 > maxUint64 then (maxUint64, some .outOfRange)
        else parseUintLoop cs n1
    else (0, some .malformed)

/-- Go `strconv.ParseUint(s, 10, 64)`. -/
def ParseUint (s : List Char) : Nat × Option NumError :=
  match s with
  | [] => (0, some .malformed)
  | _ => parseUintLoop s 0

/-- Go `strconv.ParseInt(s, 10, 64)`: the value and the error, if any. On a
syntax error the value is 0; on a range error it is the nearest `int64`. -/
def ParseInt (s : String) : Int × Option NumError :=
  match s.data with
  | [] => (0, some .malformed)
  | c :: cs =>
    let neg := c == '-'
    let body := if c == '+' || c == '-' then cs else c :: cs
    match ParseUint body with
    | (_, some .malformed) => (0, some .malformed)
    | (un, _) =>
      if !neg && un ≥ 2 ^ 63 then ((2 : Int) ^ 63 - 1, some .outOfRange)
      else if neg && un > 2 ^ 63 then (-(2 : Int) ^ 63, some .outOfRange)
      else (if neg then -(un : Int) else (un : Int), none)

/-- Go `strings.Replace(s, ":", "", 1)`: the first colon is removed. -/
def replaceColon (s : String) : String := ⟨s.data.erase ':'⟩

/-- Go `strings.Split(s, "/")` on the characters of `s`. -/
def splitSlash : List Char → List (List Char)
  | [] => [[]]
  | c :: cs =>
    if c = '/' then [] :: splitSlash cs
    else
      match splitSlash cs with
      | [] => [[c]]
      | p :: ps => (c :: p) :: ps

/-- Go `strings.Split(s, "/")`. -/
def Split (s : String) : List String := (splitSlash s.data).map String.mk

/-- Reduction of a mathematical integer to `int64` (two's complement). -/
def wrap64 (x : Int) : Int := (x + 2 ^ 63) % 2 ^ 64 - 2 ^ 63

/-- Go `a - b` on `int64`. -/
def sub64 (a b : Int) : Int := wrap64 (a - b)

/-- Go `a + b` on `int64`. -/
def add64 (a b : Int) : Int := wrap64 (a + b)

/-! ## Data model -/

/-- Go `map[string]interface{}` holding `int64` values. -/
abbrev Fields := List (String × Int)

/-- Go `fields[k] = v`. -/
def setField : Fields → String → Int → Fields
  | [], k, v => [(k, v)]
  | (k0, v0) :: rest, k, v =>
    if k0 = k then (k, v) :: rest else (k0, v0) :: setField rest k v

/-- Go `fields[k]` read back. -/
def getField : Fields → String → Option Int
  | [], _ => none
  | (k0, v0) :: rest, k => if k0 = k then some v0 else getField rest k

/-- One `acc.AddFields(name, fields, tags)` call. -/
structure Record where
  name : String
  fields : Fields
  tags : List (String × String)
  deriving DecidableEq, Repr

/-- The plugin configuration (struct `NFSClient`). -/
structure NFSClient where
  Fullstat : Bool
  IncludeMounts : List String
  ExcludeMounts : List String
  deriving DecidableEq, Repr

/-! ## convert, in (source lines 203 to 219) -/

/-- Source `convert`: every token after the first is parsed, the parse error
is dropped. `line[1:]` panics on an empty slice. -/
def convert (line : List String) : Except String (List Int) :=
  match line with
  | [] => .error "slice bounds out of range"
  | _ :: rest => .ok (rest.map fun l => (ParseInt l).1)

/-- Source `in` (the name is reserved in Lean). -/
def inList : List String → String → Bool
  | [], _ => false
  | v :: rest, val => if v = val then true else inList rest val

/-! ## parseStat (source lines 221 to 293) -/

/-- The loop `for i, t := range table { fields[t] = nline[i+off] }`, entered
with `i = off`. -/
def rangeFill : List String → Nat → List Int → Fields → Except String Fields
  | [], _, _, fields => .ok fields
  | t :: ts, i, nline, fields =>
    match index nline i with
    | .error e => .error e
    | .ok v => rangeFill ts (i + 1) nline (setField fields t v)

/-- The loop `for i, t := range nline { fields[first_nfsopFields[i]] = t }`,
entered with `i = 0`. -/
def opsFill (first : String) : List Int → Nat → Fields → Except String Fields
  | [], _, fields => .ok fields
  | t :: ts, i, fields =>
    match index nfsopFields i with
    | .error e => .error e
    | .ok f => opsFill first ts (i + 1) (setField fields (first ++ "_" ++ f) t)

/-- Source lines 257 to 271 for one of READ (`pre = "read"`) and WRITE
(`pre = "write"`): five derived fields, then `AddFields`. The field map is
returned as well, since the source keeps using it. -/
def derived (pre : String) (nline : List Int) (tags : List (String × String))
    (fields : Fields) : Except String (Fields × List Record) := do
  let n0 ← index nline 0
  let fields := setField fields (pre ++ "_ops") n0
  let n1 ← index nline 1
  let n0 ← index nline 0
  let fields := setField fields (pre ++ "_retrans") (sub64 n1 n0)
  let n3 ← index nline 3
  let n4 ← index nline 4
  let fields := setField fields (pre ++ "_bytes") (add64 n3 n4)
  let n6 ← index nline 6
  let fields := setField fields (pre ++ "_rtt") n6
  let n7 ← index nline 7
  let fields := setField fields (pre ++ "_exe") n7
  pure (fields, [⟨"nfsstat_" ++ pre, fields, tags⟩])

/-- Source lines 256 to 272. -/
def readWrite (first : String) (nline : List Int) (tags : List (String × String))
    (fields : Fields) : Except String (Fields × List Record) :=
  if inList nfs3Fields first && decide (nline.length > 7) then
    if first = "READ" then derived "read" nline tags fields
    else if first = "WRITE" then derived "write" nline tags fields
    else .ok (fields, [])
  else .ok (fields, [])

/-- Source lines 274 to 280 (`table = nfs3Fields`) and 282 to 288
(`table = nfs4Fields`). -/
def opsRecord (table : List String) (first : String) (nline : List Int)
    (tags : List (String × String)) (fields : Fields) : Except String (List Record) :=
  if inList table first && decide (nline.length ≤ nfsopFields.length) then
    match opsFill first nline 0 fields with
    | .error e => .error e
    | .ok fields => .ok [⟨"nfs_ops", fields, tags⟩]
  else .ok []

/-- Source lines 239 to 254: the `switch line[1]` of the xprt branch. -/
def xprt (line : List String) (nline : List Int) (tags : List (String × String))
    (fields : Fields) : Except String (List Record) :=
  match index line 1 with
  | .error e => .error e
  | .ok proto =>
    if proto = "tcp" then
      if nline.length + 2 ≥ xprttcpFields.length then
        match rangeFill xprttcpFields 2 nline fields with
        | .error e => .error e
        | .ok fields => .ok [⟨"nfs_xprt_tcp", fields, tags⟩]
      else .ok []
    else if proto = "udp" then
      if nline.length + 2 ≥ xprtudpFields.length then
        match rangeFill xprtudpFields 2 nline fields with
        | .error e => .error e
        | .ok fields => .ok [⟨"nfs_xprt_udp", fields, tags⟩]
      else .ok []
    else .ok []

/-- Source lines 256 to 289: the body of the branch
`version == "3" || version == "4"`. The field map filled for the derived
READ or WRITE record is the one the per-operation loop goes on writing to. -/
def operations (version first : String) (nline : List Int) (fullstat : Bool)
    (tags : List (String × String)) (fields : Fields) : Except String (List Record) :=
  match readWrite first nline tags fields with
  | .error e => .error e
  | .ok (fields, out) =>
    if fullstat && decide (version = "3") then
      match opsRecord nfs3Fields first nline tags fields with
      | .error e => .error e
      | .ok ops => .ok (out ++ ops)
    else if fullstat && decide (version = "4") then
      match opsRecord nfs4Fields first nline tags fields with
      | .error e => .error e
      | .ok ops => .ok (out ++ ops)
    else .ok out

/-- Source `parseStat`: the records it hands to the accumulator, in order, or
the runtime panic. Every panic of this function happens before its first
`AddFields` call. -/
def parseStat (mountpoint serverexport version : String) (line : List String)
    (fullstat : Bool) : Except String (List Record) :=
  let tags := [("mountpoint", mountpoint), ("serverexport", serverexport)]
  match convert line with
  | .error e => .error e
  | .ok nline =>
    match index line 0 with
    | .error e => .error e
    | .ok tok =>
      let first := replaceColon tok
      let fields : Fields := []
      if fullstat && decide (first = "events")
          && decide (nline.length ≥ eventsFields.length) then
        match rangeFill eventsFields 0 nline fields with
        | .error e => .error e
        | .ok fields => .ok [⟨"nfs_events", fields, tags⟩]
      else if fullstat && decide (first = "bytes")
          && decide (nline.length ≥ bytesFields.length) then
        match rangeFill bytesFields 0 nline fields with
        | .error e => .error e
        | .ok fields => .ok [⟨"nfs_bytes", fields, tags⟩]
      else if fullstat && decide (first = "xprt") && decide (line.length > 1) then
        xprt line nline tags fields
      else if version = "3" ∨ version = "4" then
        operations version first nline fullstat tags fields
      else .ok []

/-! ## processText (source lines 295 to 338) -/

/-- The loop variables of `processText`, the accumulator, and the panic that
ended the scan, if one did. -/
structure State where
  device : String
  version : String
  serverexport : String
  skip : Bool
  acc : List Record
  panicked : Option String
  deriving DecidableEq, Repr

/-- The state `processText` starts from: zero values, nothing emitted. -/
def initState : State := ⟨"", "", "", false, [], none⟩

/-- Source lines 304 to 310: the context update of one line. -/
def classify (st : State) (line : List String) : Except String State :=
  if inList line "fstype" && (inList line "nfs" || inList line "nfs4")
      && decide (line.length > 4) then
    match index line 4, index line 1 with
    | .ok d, .ok e => .ok { st with device := d, serverexport := e, skip := false }
    | .error e, _ => .error e
    | _, .error e => .error e
  else if (inList line "(nfs)" || inList line "(nfs4)") && decide (line.length > 5) then
    match index line 5 with
    | .error e => .error e
    | .ok t =>
      match index (Split t) 1 with
      | .error e => .error e
      | .ok v => .ok { st with version := v }
  else .ok st

/-- The result `matched` of `matched, _ := regexp.MatchString(RE, device)`:
`regexp.MatchString` is a parameter; when it reports an error its boolean
result is false. -/
def matched (MatchString : String → String → Except String Bool) (re s : String) : Bool :=
  match MatchString re s with
  | .ok b => b
  | .error _ => false

/-- Source lines 312 to 331: the value of `skip` after the two filter loops. -/
def filter (MatchString : String → String → Except String Bool) (n : NFSClient)
    (device : String) (skip : Bool) : Bool :=
  let skip :=
    if n.IncludeMounts.length > 0 then
      !(n.IncludeMounts.any fun re => matched MatchString re device)
    else skip
  if n.ExcludeMounts.length > 0 then
    if n.ExcludeMounts.any fun re => matched MatchString re device then true else skip
  else skip

/-- Source lines 304 to 333: context update, filter, and the condition
`!skip && len(line) > 0` that guards the call of `parseStat`. -/
def gate (MatchString : String → String → Except String Bool) (n : NFSClient)
    (st : State) (line : List String) : Except String (State × Bool) :=
  match classify st line with
  | .error e => .error e
  | .ok st1 =>
    let skip := filter MatchString n st1.device st1.skip
    .ok ({ st1 with skip := skip }, !skip && decide (line.length > 0))

/-- One iteration of the loop of `processText`. A panic leaves the loop
variables as they were when it happened. -/
def processLine (MatchString : String → String → Except String Bool) (n : NFSClient)
    (st : State) (line : List String) : State :=
  match gate MatchString n st line with
  | .error e => { st with panicked := some e }
  | .ok (st2, offered) =>
    if offered then
      match parseStat st2.device st2.serverexport st2.version line n.Fullstat with
      | .error e => { st2 with panicked := some e }
      | .ok recs => { st2 with acc := st2.acc ++ recs }
    else st2

/-- The loop of `processText` from a given state; a panic ends it. -/
def processFrom (MatchString : String → String → Except String Bool) (n : NFSClient) :
    State → List (List String) → State
  | st, [] => st
  | st, line :: rest =>
    match st.panicked with
    | some _ => st
    | none => processFrom MatchString n (processLine MatchString n st line) rest

/-- Source `processText` on the tokenised lines the scanner yields. -/
def processText (MatchString : String → String → Except String Bool) (n : NFSClient)
    (lines : List (List String)) : State :=
  processFrom MatchString n initState lines

/-! ## Definitions used to state the properties -/

/-- The field map built by `derived` from an empty map. -/
def derivedFields (pre : String) (n : List Int) : Fields :=
  [(pre ++ "_ops", n.getD 0 0), (pre ++ "_retrans", sub64 (n.getD 1 0) (n.getD 0 0)),
   (pre ++ "_bytes", add64 (n.getD 3 0) (n.getD 4 0)), (pre ++ "_rtt", n.getD 6 0),
   (pre ++ "_exe", n.getD 7 0)]

/-- Spec: a mount-boundary line has at least 5 tokens and contains the token
`fstype` and the token `nfs` or `nfs4`. -/
def isMountBoundary (line : List String) : Bool :=
  decide (5 ≤ line.length) && inList line "fstype" && (inList line "nfs" || inList line "nfs4")

/-- Spec: token[4] of the most recent mount-boundary line among `lines`, or
`d` if there is none. -/
def deviceFrom (d : String) (lines : List (List String)) : String :=
  lines.foldl (fun d line => if isMountBoundary line then line.getD 4 "" else d) d

/-- Spec: the Mount Filter, `(include is non-empty and no include pattern
matches d) or (some exclude pattern matches d)`. -/
def shouldSkip (MatchString : String → String → Except String Bool) (d : String)
    (includePatterns excludePatterns : List String) : Bool :=
  (decide (includePatterns ≠ []) && includePatterns.all fun re => !matched MatchString re d)
    || excludePatterns.any fun re => matched MatchString re d

/-- The loop invariant of `processText` on `skip`: it is only ever true when
the Mount Filter says so for the current device. -/
def skipInv (MatchString : String → String → Except String Bool) (n : NFSClient)
    (st : State) : Prop :=
  st.skip = true → shouldSkip MatchString st.device n.IncludeMounts n.ExcludeMounts = true

/-- Whether the second list starts with the first. -/
def startsWith : List Char → List Char → Bool
  | [], _ => true
  | _ :: _, [] => false
  | p :: ps, c :: cs => p == c && startsWith ps cs

/-- A stand-in for `regexp.MatchString` on the patterns `^literal`, used to run
the scan on concrete inputs: such a pattern matches the strings that start
with the literal. Every other pattern is reported as an error. -/
def anchoredMatch (re s : String) : Except String Bool :=
  match re.data with
  | '^' :: p => .ok (startsWith p s.data)
  | _ => .error "unsupported pattern"

/-- Spec: a version line has at least 6 tokens and contains the token `(nfs)`
or `(nfs4)`. -/
def isVersionLine (line : List String) : Bool :=
  decide (6 ≤ line.length) && (inList line "(nfs)" || inList line "(nfs4)")

/-- The number a digit string denotes in base 10, read after the digits that
gave `n`. -/
def digitsValue : List Char → Nat → Nat
  | [], n => n
  | c :: cs, n => digitsValue cs (n * 10 + (c.toNat - 48))

/-- The token without its sign, if it has one. -/
def unsignedPart (s : String) : List Char :=
  match s.data with
  | [] => []
  | c :: cs => if c = '+' ∨ c = '-' then cs else c :: cs

/-- Whether the token starts with a minus sign. -/
def isNegative (s : String) : Bool :=
  match s.data with
  | [] => false
  | c :: _ => decide (c = '-')

/-- Spec: the integer a token denotes in base 10, if it denotes one: an
optional sign followed by one or more decimal digits. -/
def denoted (s : String) : Option Int :=
  if unsignedPart s ≠ [] ∧ (unsignedPart s).all Char.isDigit then
    some (if isNegative s then -(digitsValue (unsignedPart s) 0 : Int)
      else (digitsValue (unsignedPart s) 0 : Int))
  else none

/-- The number denoted by the decimal digits a token has between its sign and
its first other character. -/
def leadingDigits (s : String) : Nat :=
  digitsValue ((unsignedPart s).takeWhile Char.isDigit) 0

/-- Reduction of an integer to the `int64` range by saturation. -/
def clamp64 (v : Int) : Int :=
  if v > 2 ^ 63 - 1 then 2 ^ 63 - 1 else if v < -(2 ^ 63) then -(2 ^ 63) else v

/-- A second stand-in for `regexp.MatchString`: on top of `anchoredMatch`, the
pattern `a^` is well-formed and matches no string. A pattern such as `(` is
reported as an error. -/
def sampleMatch (re s : String) : Except String Bool :=
  if re = "a^" then .ok false else anchoredMatch re s

/-- Source `processText` called with an accumulator that already holds
records: the four loop variables start from their zero values (source lines 296
to 299), whatever an earlier call left. -/
def processTextOn (MatchString : String → String → Except String Bool) (n : NFSClient)
    (acc : List Record) (lines : List (List String)) : State :=
  processFrom MatchString n ⟨"", "", "", false, acc, none⟩ lines

/-- The state `st` with the records `pre` put in front of its accumulator. -/
def withAcc (pre : List Record) (st : State) : State :=
  { st with acc := pre ++ st.acc }

/-- The records a `parseStat` call hands to the accumulator: none when it
panics, since every panic of `parseStat` precedes its first `AddFields`. -/
def emitted (result : Except String (List Record)) : List Record :=
  match result with
  | .ok out => out
  | .error _ => []

/-- Spec: the names of the records of the standalone categories. -/
def isStandalone (name : String) : Bool :=
  decide (name = "nfs_events") || decide (name = "nfs_bytes") ||
    decide (name = "nfs_xprt_tcp") || decide (name = "nfs_xprt_udp")

/-- Spec: the names of the records of the operation categories. -/
def isOperation (name : String) : Bool :=
  decide (name = "nfsstat_read") || decide (name = "nfsstat_write") ||
    decide (name = "nfs_ops")

/-! ## Lemmas and theorems -/

theorem index_lt {α : Type} (xs : List α) (i : Nat) (h : i < xs.length) :
    index xs i = .ok (xs.get ⟨i, h⟩) := by
  simp [index, List.getElem?_eq_getElem h]

theorem index_getD (xs : List Int) (i : Nat) (h : i < xs.length) :
    index xs i = .ok (xs.getD i 0) := by
  simp [index, List.getElem?_eq_getElem h, List.getD]

theorem derived_read (n : List Int) (tags : List (String × String)) (h : 8 ≤ n.length) :
    derived "read" n tags [] =
      .ok (derivedFields "read" n, [⟨"nfsstat_read", derivedFields "read" n, tags⟩]) := by
  simp only [derived, index_getD n 0 (by omega), index_getD n 1 (by omega),
    index_getD n 3 (by omega), index_getD n 4 (by omega), index_getD n 6 (by omega),
    index_getD n 7 (by omega), bind, Except.bind, pure, Except.pure]
  rfl

theorem derived_write (n : List Int) (tags : List (String × String)) (h : 8 ≤ n.length) :
    derived "write" n tags [] =
      .ok (derivedFields "write" n, [⟨"nfsstat_write", derivedFields "write" n, tags⟩]) := by
  simp only [derived, index_getD n 0 (by omega), index_getD n 1 (by omega),
    index_getD n 3 (by omega), index_getD n 4 (by omega), index_getD n 6 (by omega),
    index_getD n 7 (by omega), bind, Except.bind, pure, Except.pure]
  rfl

theorem readWrite_READ (n : List Int) (tags : List (String × String)) :
    readWrite "READ" n tags [] =
      if 8 ≤ n.length then
        .ok (derivedFields "read" n, [⟨"nfsstat_read", derivedFields "read" n, tags⟩])
      else .ok ([], []) := by
  unfold readWrite
  have h3 : inList nfs3Fields "READ" = true := by rfl
  rw [h3]
  by_cases h : 8 ≤ n.length
  · have : decide (n.length > 7) = true := by simp; omega
    simp only [this, Bool.and_self, if_true, h, derived_read n tags h]
  · have : decide (n.length > 7) = false := by simp; omega
    simp [this, h]

theorem readWrite_WRITE (n : List Int) (tags : List (String × String)) :
    readWrite "WRITE" n tags [] =
      if 8 ≤ n.length then
        .ok (derivedFields "write" n, [⟨"nfsstat_write", derivedFields "write" n, tags⟩])
      else .ok ([], []) := by
  unfold readWrite
  have h3 : inList nfs3Fields "WRITE" = true := by rfl
  have hne : ¬ ("WRITE" = "READ") := by decide
  rw [h3]
  by_cases h : 8 ≤ n.length
  · have : decide (n.length > 7) = true := by simp; omega
    simp only [this, Bool.and_self, if_true, h, derived_write n tags h, hne, if_false]
  · have : decide (n.length > 7) = false := by simp; omega
    simp [this, h]

theorem opsFill_ok (first : String) (nline : List Int) :
    ∀ (i : Nat) (fields : Fields), i + nline.length ≤ nfsopFields.length →
      ∃ f, opsFill first nline i fields = .ok f := by
  induction nline with
  | nil => intro i fields _; exact ⟨fields, rfl⟩
  | cons t ts ih =>
    intro i fields h
    have hi : i < nfsopFields.length := by simp only [List.length_cons] at h; omega
    rw [opsFill, index_lt nfsopFields i hi]
    exact ih (i + 1) _ (by simp only [List.length_cons] at h; omega)

theorem opsRecord_ok (table : List String) (first : String) (nline : List Int)
    (tags : List (String × String)) (fields : Fields) :
    ∃ ops, opsRecord table first nline tags fields = .ok ops ∧
      (∀ r ∈ ops, r.name = "nfs_ops") ∧ ops.length ≤ 1 := by
  unfold opsRecord
  split
  · rename_i h
    simp only [Bool.and_eq_true, decide_eq_true_eq] at h
    obtain ⟨f, hf⟩ := opsFill_ok first nline 0 fields (by omega)
    rw [hf]
    exact ⟨_, rfl, by simp, by simp⟩
  · exact ⟨[], rfl, by simp, by simp⟩



/-- A line of a category other than events, bytes and xprt goes to the
operations branch (source line 255). -/
theorem parseStat_other (mountpoint serverexport version tok : String)
    (rest : List String) (fullstat : Bool)
    (h1 : replaceColon tok ≠ "events") (h2 : replaceColon tok ≠ "bytes")
    (h3 : replaceColon tok ≠ "xprt") :
    parseStat mountpoint serverexport version (tok :: rest) fullstat =
      if version = "3" ∨ version = "4" then
        operations version (replaceColon tok) (rest.map fun l => (ParseInt l).1) fullstat
          [("mountpoint", mountpoint), ("serverexport", serverexport)] []
      else .ok [] := by
  simp [parseStat, convert, index, h1, h2, h3]


theorem filter_name_nil (ops : List Record) (a b : String) (h : ∀ r ∈ ops, r.name = a)
    (hne : a ≠ b) : ops.filter (fun r => decide (r.name = b)) = [] := by
  rw [List.filter_eq_nil_iff]
  intro r hr
  simp [h r hr, hne]

/-- The operations branch on a READ or WRITE line, starting from the empty
field map: the records named `nfsstat_read` (`nfsstat_write`) it emits. -/
theorem operations_derived (version : String) (n : List Int) (fullstat : Bool)
    (tags : List (String × String)) (op pre : String)
    (hop : (op = "READ" ∧ pre = "read") ∨ (op = "WRITE" ∧ pre = "write")) :
    ∃ out, operations version op n fullstat tags [] = .ok out ∧
      out.filter (fun r => decide (r.name = "nfsstat_" ++ pre)) =
        if 8 ≤ n.length then [⟨"nfsstat_" ++ pre, derivedFields pre n, tags⟩] else [] := by
  have hrw : readWrite op n tags [] =
      if 8 ≤ n.length then
        .ok (derivedFields pre n, [⟨"nfsstat_" ++ pre, derivedFields pre n, tags⟩])
      else .ok ([], []) := by
    rcases hop with ⟨h1, h2⟩ | ⟨h1, h2⟩
    · subst h1; subst h2; exact readWrite_READ n tags
    · subst h1; subst h2; exact readWrite_WRITE n tags
  have hne : "nfs_ops" ≠ "nfsstat_" ++ pre := by
    rcases hop with ⟨_, h2⟩ | ⟨_, h2⟩ <;> subst h2 <;> decide
  unfold operations
  rw [hrw]
  by_cases h8 : 8 ≤ n.length
  · simp only [h8, if_true]
    obtain ⟨o3, h3, hn3, _⟩ := opsRecord_ok nfs3Fields op n tags (derivedFields pre n)
    obtain ⟨o4, h4, hn4, _⟩ := opsRecord_ok nfs4Fields op n tags (derivedFields pre n)
    rw [h3, h4]
    split
    · exact ⟨_, rfl, by simp [List.filter_append, filter_name_nil o3 _ _ hn3 hne]⟩
    · split
      · exact ⟨_, rfl, by simp [List.filter_append, filter_name_nil o4 _ _ hn4 hne]⟩
      · exact ⟨_, rfl, by simp⟩
  · simp only [h8, if_false]
    obtain ⟨o3, h3, hn3, _⟩ := opsRecord_ok nfs3Fields op n tags []
    obtain ⟨o4, h4, hn4, _⟩ := opsRecord_ok nfs4Fields op n tags []
    rw [h3, h4]
    split
    · exact ⟨_, rfl, by simp [filter_name_nil o3 _ _ hn3 hne]⟩
    · split
      · exact ⟨_, rfl, by simp [filter_name_nil o4 _ _ hn4 hne]⟩
      · exact ⟨_, rfl, by simp⟩

theorem wrap64_range (x : Int) : -(2 ^ 63) ≤ wrap64 x ∧ wrap64 x < 2 ^ 63 := by
  unfold wrap64
  norm_num
  omega

theorem wrap64_dvd (x : Int) : (2 ^ 64 : Int) ∣ wrap64 x - x := by
  unfold wrap64
  norm_num
  omega

theorem wrap64_id (x : Int) (h1 : -(2 ^ 63) ≤ x) (h2 : x < 2 ^ 63) : wrap64 x = x := by
  unfold wrap64
  norm_num at h1 h2 ⊢
  omega

/-- C1. On a line whose category (the first token with its first colon removed)
is READ, resp. WRITE, with protocol version "3" or "4" and either value of the
full-statistics flag, `parseStat` returns without a panic; among the records it
emits, those named `nfsstat_read` (resp. `nfsstat_write`) are exactly one when
the line has at least 8 numeric tokens and none otherwise; that record has the
two tags and the five fields `ops = n[0]`, `retrans`, `bytes`, `rtt = n[6]`,
`exe = n[7]`, where `n` is the result of `convert`. `retrans` is the `int64`
difference `n[1] - n[0]`: the value in the 64-bit signed range that differs
from the integer `n[1] - n[0]` by a multiple of `2^64`, hence that integer
itself whenever it is in the range; `bytes` is the `int64` sum `n[3] + n[4]` in
the same sense. -/
theorem parseStat_read_write (mountpoint serverexport version tok : String)
    (rest : List String) (fullstat : Bool) (op pre : String)
    (hv : version = "3" ∨ version = "4")
    (hop : (op = "READ" ∧ pre = "read") ∨ (op = "WRITE" ∧ pre = "write"))
    (hfirst : replaceColon tok = op) :
    ∃ n out retrans bytes, convert (tok :: rest) = .ok n ∧ n.length = rest.length ∧
      parseStat mountpoint serverexport version (tok :: rest) fullstat = .ok out ∧
      (-(2 ^ 63) ≤ retrans ∧ retrans < 2 ^ 63 ∧
        (2 ^ 64 : Int) ∣ retrans - (n.getD 1 0 - n.getD 0 0)) ∧
      (-(2 ^ 63) ≤ n.getD 1 0 - n.getD 0 0 → n.getD 1 0 - n.getD 0 0 < 2 ^ 63 →
        retrans = n.getD 1 0 - n.getD 0 0) ∧
      (-(2 ^ 63) ≤ bytes ∧ bytes < 2 ^ 63 ∧
        (2 ^ 64 : Int) ∣ bytes - (n.getD 3 0 + n.getD 4 0)) ∧
      (-(2 ^ 63) ≤ n.getD 3 0 + n.getD 4 0 → n.getD 3 0 + n.getD 4 0 < 2 ^ 63 →
        bytes = n.getD 3 0 + n.getD 4 0) ∧
      out.filter (fun r => decide (r.name = "nfsstat_" ++ pre)) =
        if 8 ≤ n.length then
          [⟨"nfsstat_" ++ pre,
            [(pre ++ "_ops", n.getD 0 0),
             (pre ++ "_retrans", retrans),
             (pre ++ "_bytes", bytes),
             (pre ++ "_rtt", n.getD 6 0),
             (pre ++ "_exe", n.getD 7 0)],
            [("mountpoint", mountpoint), ("serverexport", serverexport)]⟩]
        else [] := by
  have hb := parseStat_other mountpoint serverexport version tok rest fullstat
    (by rw [hfirst]; rcases hop with ⟨h, _⟩ | ⟨h, _⟩ <;> subst h <;> decide)
    (by rw [hfirst]; rcases hop with ⟨h, _⟩ | ⟨h, _⟩ <;> subst h <;> decide)
    (by rw [hfirst]; rcases hop with ⟨h, _⟩ | ⟨h, _⟩ <;> subst h <;> decide)
  rw [if_pos hv, hfirst] at hb
  obtain ⟨out, ho, hf⟩ := operations_derived version (rest.map fun l => (ParseInt l).1)
    fullstat [("mountpoint", mountpoint), ("serverexport", serverexport)] op pre hop
  generalize hn : (rest.map fun l => (ParseInt l).1) = n at hb ho hf
  have hlen : n.length = rest.length := by rw [← hn]; simp
  have hconv : convert (tok :: rest) = .ok n := by rw [← hn]; rfl
  exact ⟨n, out, sub64 (n.getD 1 0) (n.getD 0 0), add64 (n.getD 3 0) (n.getD 4 0),
    hconv, hlen, by rw [hb, ho],
    ⟨(wrap64_range _).1, (wrap64_range _).2, wrap64_dvd _⟩,
    fun h1 h2 => wrap64_id _ h1 h2,
    ⟨(wrap64_range _).1, (wrap64_range _).2, wrap64_dvd _⟩,
    fun h1 h2 => wrap64_id _ h1 h2, hf⟩

theorem parseStat_read_write_witness :
    parseStat "/mnt" "srv:/x" "3" ["READ:", "10", "12", "0", "100", "200", "0", "5", "7"]
        false =
      .ok [⟨"nfsstat_read",
        [("read_ops", 10), ("read_retrans", 2), ("read_bytes", 300), ("read_rtt", 5),
         ("read_exe", 7)],
        [("mountpoint", "/mnt"), ("serverexport", "srv:/x")]⟩] ∧
    ∃ n out retrans bytes,
      convert ("READ:" :: ["10", "12", "0", "100", "200", "0", "5", "7"]) = .ok n ∧
      n.length = ["10", "12", "0", "100", "200", "0", "5", "7"].length ∧
      parseStat "/mnt" "srv:/x" "3" ("READ:" :: ["10", "12", "0", "100", "200", "0", "5", "7"])
        false = .ok out ∧
      (-(2 ^ 63) ≤ retrans ∧ retrans < 2 ^ 63 ∧
        (2 ^ 64 : Int) ∣ retrans - (n.getD 1 0 - n.getD 0 0)) ∧
      (-(2 ^ 63) ≤ n.getD 1 0 - n.getD 0 0 → n.getD 1 0 - n.getD 0 0 < 2 ^ 63 →
        retrans = n.getD 1 0 - n.getD 0 0) ∧
      (-(2 ^ 63) ≤ bytes ∧ bytes < 2 ^ 63 ∧
        (2 ^ 64 : Int) ∣ bytes - (n.getD 3 0 + n.getD 4 0)) ∧
      (-(2 ^ 63) ≤ n.getD 3 0 + n.getD 4 0 → n.getD 3 0 + n.getD 4 0 < 2 ^ 63 →
        bytes = n.getD 3 0 + n.getD 4 0) ∧
      out.filter (fun r => decide (r.name = "nfsstat_" ++ "read")) =
        if 8 ≤ n.length then
          [⟨"nfsstat_" ++ "read",
            [("read" ++ "_ops", n.getD 0 0),
             ("read" ++ "_retrans", retrans),
             ("read" ++ "_bytes", bytes),
             ("read" ++ "_rtt", n.getD 6 0),
             ("read" ++ "_exe", n.getD 7 0)],
            [("mountpoint", "/mnt"), ("serverexport", "srv:/x")]⟩]
        else [] :=
  ⟨rfl,
   parseStat_read_write "/mnt" "srv:/x" "3" "READ:"
    ["10", "12", "0", "100", "200", "0", "5", "7"]
    false "READ" "read" (Or.inl rfl) (Or.inl ⟨rfl, rfl⟩) (by decide)⟩

theorem classify_acc (st st1 : State) (line : List String) (h : classify st line = .ok st1) :
    st1.acc = st.acc ∧ st1.panicked = st.panicked := by
  unfold classify at h
  split at h
  · split at h
    · cases h; exact ⟨rfl, rfl⟩
    · cases h
    · cases h
  · split at h
    · split at h
      · cases h
      · split at h
        · cases h
        · cases h; exact ⟨rfl, rfl⟩
    · cases h; exact ⟨rfl, rfl⟩

theorem gate_acc (MatchString : String → String → Except String Bool) (n : NFSClient)
    (st st2 : State) (line : List String) (b : Bool)
    (h : gate MatchString n st line = .ok (st2, b)) :
    st2.acc = st.acc ∧ st2.panicked = st.panicked := by
  unfold gate at h
  split at h
  · cases h
  · rename_i st1 hc
    cases h
    exact classify_acc st st1 line hc

/-- What one loop iteration adds to the accumulator: nothing, or the records
of the one `parseStat` call it makes. -/
theorem processLine_acc (MatchString : String → String → Except String Bool) (n : NFSClient)
    (st : State) (line : List String) :
    (processLine MatchString n st line).acc = st.acc ∨
    ∃ st2 recs, gate MatchString n st line = .ok (st2, true) ∧
      parseStat st2.device st2.serverexport st2.version line n.Fullstat = .ok recs ∧
      (processLine MatchString n st line).acc = st.acc ++ recs := by
  unfold processLine
  split
  · exact Or.inl rfl
  · rename_i st2 offered hg
    have ha := (gate_acc MatchString n st st2 line offered hg).1
    cases offered with
    | false => exact Or.inl (by simpa using ha)
    | true =>
      simp only [if_true]
      split
      · exact Or.inl (by simpa using ha)
      · rename_i recs hp
        exact Or.inr ⟨st2, recs, hg, hp, by simp [ha]⟩

/-- A property of every record a `parseStat` call can emit under the given
configuration holds of every record of the scan. -/
theorem processFrom_records (MatchString : String → String → Except String Bool)
    (n : NFSClient) (P : Record → Prop)
    (hP : ∀ (mountpoint serverexport version : String) (line : List String)
      (recs : List Record),
      parseStat mountpoint serverexport version line n.Fullstat = .ok recs → ∀ r ∈ recs, P r)
    (lines : List (List String)) :
    ∀ st : State, (∀ r ∈ st.acc, P r) →
      ∀ r ∈ (processFrom MatchString n st lines).acc, P r := by
  induction lines with
  | nil => intro st h; simpa [processFrom] using h
  | cons line rest ih =>
    intro st h
    unfold processFrom
    split
    · exact h
    · apply ih
      rcases processLine_acc MatchString n st line with he | ⟨st2, recs, _, hp, he⟩
      · rw [he]; exact h
      · rw [he]
        intro r hr
        rcases List.mem_append.mp hr with h1 | h1
        · exact h r h1
        · exact hP _ _ _ _ _ hp r h1

theorem derived_names (pre : String) (n : List Int) (tags : List (String × String))
    (fields fields1 : Fields) (out : List Record)
    (h : derived pre n tags fields = .ok (fields1, out)) :
    ∀ r ∈ out, r.name = "nfsstat_" ++ pre ∧ r.tags = tags := by
  unfold derived at h
  simp only [bind, Except.bind, pure, Except.pure] at h
  repeat (split at h; · cases h)
  cases h
  intro r hr
  simp at hr
  subst hr
  exact ⟨rfl, rfl⟩

theorem readWrite_names (first : String) (n : List Int) (tags : List (String × String))
    (fields fields1 : Fields) (out : List Record)
    (h : readWrite first n tags fields = .ok (fields1, out)) :
    ∀ r ∈ out, (r.name = "nfsstat_read" ∨ r.name = "nfsstat_write") ∧ r.tags = tags := by
  unfold readWrite at h
  split at h
  · split at h
    · intro r hr
      have := derived_names _ _ _ _ _ _ h r hr
      exact ⟨Or.inl this.1, this.2⟩
    · split at h
      · intro r hr
        have := derived_names _ _ _ _ _ _ h r hr
        exact ⟨Or.inr this.1, this.2⟩
      · cases h; simp
  · cases h; simp

theorem parseStat_default_names (mountpoint serverexport version : String)
    (line : List String) (recs : List Record)
    (h : parseStat mountpoint serverexport version line false = .ok recs) :
    ∀ r ∈ recs, r.name = "nfsstat_read" ∨ r.name = "nfsstat_write" := by
  unfold parseStat at h
  simp only [Bool.false_and, Bool.false_eq_true, if_false] at h
  split at h
  · cases h
  · split at h
    · cases h
    · split at h
      · unfold operations at h
        split at h
        · cases h
        · rename_i fields out hrw
          simp only [Bool.false_and, Bool.false_eq_true, if_false] at h
          cases h
          intro r hr
          exact (readWrite_names _ _ _ _ _ _ hrw r hr).1
      · cases h; simp

/-- C2. With the full-statistics flag false, for every matcher, include and
exclude list and line sequence, every record the scan emits is named
`nfsstat_read` or `nfsstat_write`. -/
theorem scan_default_names (MatchString : String → String → Except String Bool)
    (includeMounts excludeMounts : List String) (lines : List (List String)) :
    ∀ r ∈ (processText MatchString ⟨false, includeMounts, excludeMounts⟩ lines).acc,
      r.name = "nfsstat_read" ∨ r.name = "nfsstat_write" := by
  unfold processText
  apply processFrom_records MatchString ⟨false, includeMounts, excludeMounts⟩
    (fun r => r.name = "nfsstat_read" ∨ r.name = "nfsstat_write")
  · intro mp ex v line recs h
    exact parseStat_default_names mp ex v line recs h
  · intro r hr
    simp [initState] at hr

theorem scan_default_names_witness :
    (⟨"nfsstat_read",
        [("read_ops", 10), ("read_retrans", 0), ("read_bytes", 300), ("read_rtt", 5),
         ("read_exe", 7)],
        [("mountpoint", "/mnt"), ("serverexport", "srv:/x")]⟩ : Record) ∈
      (processText anchoredMatch ⟨false, [], []⟩
        [["device", "srv:/x", "mounted", "on", "/mnt", "with", "fstype", "nfs"],
         ["RPC", "iostats", "version:", "1.0", "p/v:", "100003/3", "(nfs)"],
         ["events:", "1", "2", "3"],
         ["READ:", "10", "10", "0", "100", "200", "0", "5", "7"]]).acc ∧
    ((⟨"nfsstat_read",
        [("read_ops", 10), ("read_retrans", 0), ("read_bytes", 300), ("read_rtt", 5),
         ("read_exe", 7)],
        [("mountpoint", "/mnt"), ("serverexport", "srv:/x")]⟩ : Record).name = "nfsstat_read" ∨
     (⟨"nfsstat_read",
        [("read_ops", 10), ("read_retrans", 0), ("read_bytes", 300), ("read_rtt", 5),
         ("read_exe", 7)],
        [("mountpoint", "/mnt"), ("serverexport", "srv:/x")]⟩ : Record).name = "nfsstat_write") :=
  ⟨List.mem_singleton.mpr rfl,
   scan_default_names anchoredMatch [] []
    [["device", "srv:/x", "mounted", "on", "/mnt", "with", "fstype", "nfs"],
     ["RPC", "iostats", "version:", "1.0", "p/v:", "100003/3", "(nfs)"],
     ["events:", "1", "2", "3"],
     ["READ:", "10", "10", "0", "100", "200", "0", "5", "7"]]
    _ (List.mem_singleton.mpr rfl)⟩

theorem classify_device (st st1 : State) (line : List String)
    (h : classify st line = .ok st1) :
    st1.device = (if isMountBoundary line then line.getD 4 "" else st.device) ∧
    st1.serverexport = (if isMountBoundary line then line.getD 1 "" else st.serverexport) ∧
    st1.skip = (if isMountBoundary line then false else st.skip) := by
  unfold classify at h
  split at h
  · rename_i hb
    have hb2 : isMountBoundary line = true := by
      simp only [Bool.and_eq_true, decide_eq_true_eq, Bool.or_eq_true] at hb
      simp only [isMountBoundary, Bool.and_eq_true, decide_eq_true_eq, Bool.or_eq_true]
      exact ⟨⟨by omega, hb.1.1⟩, hb.1.2⟩
    simp only [Bool.and_eq_true, decide_eq_true_eq] at hb
    rw [index_lt line 4 (by omega), index_lt line 1 (by omega)] at h
    simp only [Except.ok.injEq] at h
    subst h
    simp [hb2, List.getD, List.getElem?_eq_getElem (show 4 < line.length by omega),
      List.getElem?_eq_getElem (show 1 < line.length by omega)]
  · rename_i hb
    have hb2 : isMountBoundary line = false := by
      rw [Bool.eq_false_iff]
      intro hc
      apply hb
      simp only [isMountBoundary, Bool.and_eq_true, decide_eq_true_eq, Bool.or_eq_true] at hc
      simp only [Bool.and_eq_true, decide_eq_true_eq, Bool.or_eq_true]
      exact ⟨⟨hc.1.2, hc.2⟩, by omega⟩
    split at h
    · split at h
      · cases h
      · split at h
        · cases h
        · cases h; simp [hb2]
    · cases h; simp [hb2]

theorem all_not_eq_not_any (f : String → Bool) (l : List String) :
    (l.all fun re => !f re) = !(l.any fun re => f re) := by
  induction l with
  | nil => rfl
  | cons a as ih => simp only [List.all_cons, List.any_cons, ih, Bool.not_or]

theorem filter_eq_shouldSkip (MatchString : String → String → Except String Bool)
    (n : NFSClient) (d : String) (skip : Bool)
    (h : skip = true → shouldSkip MatchString d n.IncludeMounts n.ExcludeMounts = true) :
    filter MatchString n d skip = shouldSkip MatchString d n.IncludeMounts n.ExcludeMounts := by
  obtain ⟨fs, inc, exc⟩ := n
  simp only at h ⊢
  unfold filter shouldSkip at *
  rw [all_not_eq_not_any (fun re => matched MatchString re d)] at h ⊢
  simp only at h ⊢
  cases inc with
  | nil =>
    simp only [List.length_nil, gt_iff_lt, lt_self_iff_false, if_false, ne_eq, not_true,
      decide_False, Bool.false_and, Bool.false_or] at h ⊢
    cases exc with
    | nil =>
      simp only [List.any_nil] at h ⊢
      cases skip <;> simp_all
    | cons e es =>
      simp only [List.length_cons, Nat.zero_lt_succ, if_true]
      generalize ((e :: es).any fun re => matched MatchString re d) = E at h ⊢
      cases skip <;> cases E <;> simp_all
  | cons i is =>
    simp only [List.length_cons, gt_iff_lt, Nat.zero_lt_succ, if_true, ne_eq, not_false_eq_true,
      decide_True, Bool.true_and, reduceCtorEq]
    generalize ((i :: is).any fun re => matched MatchString re d) = A
    cases exc with
    | nil => simp
    | cons e es =>
      simp only [List.length_cons, Nat.zero_lt_succ, if_true]
      generalize ((e :: es).any fun re => matched MatchString re d) = E
      cases A <;> cases E <;> rfl

theorem gate_spec (MatchString : String → String → Except String Bool) (n : NFSClient)
    (st st2 : State) (line : List String) (offered : Bool)
    (hinv : skipInv MatchString n st)
    (h : gate MatchString n st line = .ok (st2, offered)) :
    st2.device = (if isMountBoundary line then line.getD 4 "" else st.device) ∧
    st2.serverexport = (if isMountBoundary line then line.getD 1 "" else st.serverexport) ∧
    st2.skip = shouldSkip MatchString st2.device n.IncludeMounts n.ExcludeMounts ∧
    offered = (!st2.skip && decide (line.length > 0)) := by
  unfold gate at h
  split at h
  · cases h
  · rename_i st1 hc
    obtain ⟨hd, he, hs⟩ := classify_device st st1 line hc
    simp only [Except.ok.injEq, Prod.mk.injEq] at h
    obtain ⟨h1, h2⟩ := h
    subst h1
    have hf : filter MatchString n st1.device st1.skip =
        shouldSkip MatchString st1.device n.IncludeMounts n.ExcludeMounts := by
      apply filter_eq_shouldSkip
      intro hsk
      by_cases hb : isMountBoundary line = true
      · rw [hs, if_pos hb] at hsk; cases hsk
      · rw [hs, if_neg hb] at hsk
        rw [hd, if_neg hb]
        exact hinv hsk
    refine ⟨hd, he, hf, ?_⟩
    rw [← h2]

/-- The loop variables after one iteration that did not panic. -/
theorem processLine_spec (MatchString : String → String → Except String Bool) (n : NFSClient)
    (st : State) (line : List String)
    (h : (processLine MatchString n st line).panicked = none) :
    ∃ st2 offered, gate MatchString n st line = .ok (st2, offered) ∧
      (processLine MatchString n st line).device = st2.device ∧
      (processLine MatchString n st line).serverexport = st2.serverexport ∧
      (processLine MatchString n st line).version = st2.version ∧
      (processLine MatchString n st line).skip = st2.skip := by
  unfold processLine at h ⊢
  split at h
  · cases h
  · rename_i st2 offered hg
    refine ⟨st2, offered, hg, ?_⟩
    cases offered with
    | false => simp
    | true =>
      simp only [if_true] at h ⊢
      split at h
      · cases h
      · rename_i recs hp
        simp [hp]

theorem processFrom_panicked (MatchString : String → String → Except String Bool)
    (n : NFSClient) (st : State) (lines : List (List String)) (e : String)
    (h : st.panicked = some e) : processFrom MatchString n st lines = st := by
  cases lines with
  | nil => rfl
  | cons l ls => simp [processFrom, h]

theorem processFrom_append (MatchString : String → String → Except String Bool)
    (n : NFSClient) (a b : List (List String)) :
    ∀ st : State, processFrom MatchString n st (a ++ b) =
      processFrom MatchString n (processFrom MatchString n st a) b := by
  induction a with
  | nil => intro st; rfl
  | cons l ls ih =>
    intro st
    cases hp : st.panicked with
    | some e =>
      rw [processFrom_panicked MatchString n st _ e hp,
        processFrom_panicked MatchString n st _ e hp,
        processFrom_panicked MatchString n st _ e hp]
    | none =>
      simp only [List.cons_append, processFrom, hp]
      exact ih _

/-- A scan that has not panicked keeps the invariant on `skip`, and its
device is token[4] of the most recent mount-boundary line. -/
theorem processFrom_inv (MatchString : String → String → Except String Bool)
    (n : NFSClient) (lines : List (List String)) :
    ∀ st : State, skipInv MatchString n st →
      (processFrom MatchString n st lines).panicked = none →
      skipInv MatchString n (processFrom MatchString n st lines) ∧
      (processFrom MatchString n st lines).device = deviceFrom st.device lines := by
  induction lines with
  | nil => intro st hinv _; exact ⟨hinv, rfl⟩
  | cons l ls ih =>
    intro st hinv hp
    cases hs : st.panicked with
    | some e =>
      rw [processFrom_panicked MatchString n st _ e hs] at hp
      rw [hs] at hp; cases hp
    | none =>
      simp only [processFrom, hs] at hp ⊢
      cases hl : (processLine MatchString n st l).panicked with
      | some e =>
        rw [processFrom_panicked MatchString n _ _ e hl, hl] at hp; cases hp
      | none =>
        obtain ⟨st2, offered, hg, hd, _, _, hsk⟩ := processLine_spec MatchString n st l hl
        obtain ⟨gd, _, gs, _⟩ := gate_spec MatchString n st st2 l offered hinv hg
        have hinv2 : skipInv MatchString n (processLine MatchString n st l) := by
          intro h
          rw [hd, ← gs, ← hsk]; exact h
        obtain ⟨i1, i2⟩ := ih _ hinv2 hp
        refine ⟨i1, ?_⟩
        rw [i2, hd, gd]
        simp [deviceFrom]

/-- The mount filter on the lines the scan reaches. Let the scan have
processed `pre` without a panic and let the context update of the non-empty
line `line` succeed. Then the guard of the `parseStat` call is true if and only
if `shouldSkip` is false at the device of the most recent mount-boundary line
at or before `line` (the empty string if there is none). In particular with
both lists empty the guard is true, and with only include patterns it is true
exactly when one of them matches the device. -/
theorem mount_filter_gate (MatchString : String → String → Except String Bool)
    (n : NFSClient) (pre : List (List String)) (line : List String) (st2 : State)
    (offered : Bool)
    (hlive : (processText MatchString n pre).panicked = none)
    (hg : gate MatchString n (processText MatchString n pre) line = .ok (st2, offered))
    (hne : line ≠ []) :
    (offered = true ↔
      shouldSkip MatchString (deviceFrom "" (pre ++ [line]))
        n.IncludeMounts n.ExcludeMounts = false) ∧
    (n.IncludeMounts = [] → n.ExcludeMounts = [] → offered = true) ∧
    (n.IncludeMounts ≠ [] → n.ExcludeMounts = [] →
      (offered = true ↔
        ∃ re ∈ n.IncludeMounts,
          matched MatchString re (deviceFrom "" (pre ++ [line])) = true)) := by
  have hinit : skipInv MatchString n initState := by
    intro h; simp [initState] at h
  obtain ⟨hinv, hdev⟩ := processFrom_inv MatchString n pre initState hinit hlive
  obtain ⟨gd, _, gs, go⟩ := gate_spec MatchString n _ st2 line offered hinv hg
  have hd : st2.device = deviceFrom "" (pre ++ [line]) := by
    rw [gd]
    change _ = deviceFrom initState.device (pre ++ [line])
    simp only [deviceFrom, List.foldl_append, List.foldl_cons, List.foldl_nil] at hdev ⊢
    rw [hdev]
  have hlen : decide (line.length > 0) = true := by
    cases line with
    | nil => exact absurd rfl hne
    | cons a as => simp
  rw [hd] at gs
  rw [hlen, Bool.and_true] at go
  have hmain : offered = true ↔
      shouldSkip MatchString (deviceFrom "" (pre ++ [line]))
        n.IncludeMounts n.ExcludeMounts = false := by
    rw [go, ← gs]; cases st2.skip <;> simp
  refine ⟨hmain, ?_, ?_⟩
  · intro hi he
    rw [hmain, hi, he]; rfl
  · intro hi he
    rw [hmain, he]
    simp only [shouldSkip, hi, ne_eq, not_false_eq_true, decide_True, Bool.true_and,
      List.any_nil, Bool.or_false]
    rw [all_not_eq_not_any (fun re => matched MatchString re _)]
    simp


theorem mount_filter_gate_witness :
    (true = true ↔
      shouldSkip anchoredMatch
        (deviceFrom ""
          ([["device", "srv:/x", "mounted", "on", "/data/home", "with", "fstype", "nfs",
              "statvers=1.1"]] ++ [["READ:", "1"]]))
        ["^/data"] [] = false) ∧
    (["^/data"] = [] → ([] : List String) = [] → true = true) ∧
    (["^/data"] ≠ [] → ([] : List String) = [] →
      (true = true ↔
        ∃ re ∈ ["^/data"],
          matched anchoredMatch re
            (deviceFrom ""
              ([["device", "srv:/x", "mounted", "on", "/data/home", "with", "fstype", "nfs",
                  "statvers=1.1"]] ++ [["READ:", "1"]])) = true)) :=
  mount_filter_gate anchoredMatch ⟨false, ["^/data"], []⟩
    [["device", "srv:/x", "mounted", "on", "/data/home", "with", "fstype", "nfs",
      "statvers=1.1"]]
    ["READ:", "1"] ⟨"/data/home", "", "srv:/x", false, [], none⟩ true rfl rfl (by decide)

/-- The guard computed by `gate` is the one that decides the `parseStat` call:
when it is true the iteration appends the records of `parseStat` on the line
(or stops with its panic), when it is false the iteration emits nothing. -/
theorem processLine_offered (MatchString : String → String → Except String Bool)
    (n : NFSClient) (st st2 : State) (line : List String) (offered : Bool)
    (hg : gate MatchString n st line = .ok (st2, offered)) :
    (offered = true → ∀ recs,
      parseStat st2.device st2.serverexport st2.version line n.Fullstat = .ok recs →
      processLine MatchString n st line = { st2 with acc := st2.acc ++ recs }) ∧
    (offered = true → ∀ e,
      parseStat st2.device st2.serverexport st2.version line n.Fullstat = .error e →
      processLine MatchString n st line = { st2 with panicked := some e }) ∧
    (offered = false → processLine MatchString n st line = st2) := by
  unfold processLine
  rw [hg]
  refine ⟨?_, ?_, ?_⟩
  · intro ho recs hp
    simp [ho, hp]
  · intro ho e hp
    simp [ho, hp]
  · intro ho
    simp [ho]

/-- C3. Evaluation at the failing input, in full-statistics mode with both
filter lists empty: the bytes line is non-empty and `shouldSkip` is false at the
device of its mount, yet the scan never offers it to `parseStat`, because the
version line before it has a token[5] without `/` and ends the scan with an
index out of range; `parseStat` on the bytes line gives one record, and without
the version line the scan emits it. -/
theorem filter_gate_lost_after_panic :
    shouldSkip anchoredMatch
      (deviceFrom ""
        [["device", "srv:/x", "mounted", "on", "/mnt", "with", "fstype", "nfs"],
         ["RPC", "iostats", "version:", "1.0", "p/v:", "100003", "(nfs)"],
         ["bytes:", "1", "2", "3", "4", "5", "6", "7", "8"]]) [] [] = false ∧
    (processText anchoredMatch ⟨true, [], []⟩
      [["device", "srv:/x", "mounted", "on", "/mnt", "with", "fstype", "nfs"],
       ["RPC", "iostats", "version:", "1.0", "p/v:", "100003", "(nfs)"],
       ["bytes:", "1", "2", "3", "4", "5", "6", "7", "8"]]).panicked
      = some "index out of range" ∧
    (processText anchoredMatch ⟨true, [], []⟩
      [["device", "srv:/x", "mounted", "on", "/mnt", "with", "fstype", "nfs"],
       ["RPC", "iostats", "version:", "1.0", "p/v:", "100003", "(nfs)"],
       ["bytes:", "1", "2", "3", "4", "5", "6", "7", "8"]]).acc = [] ∧
    parseStat "/mnt" "srv:/x" "" ["bytes:", "1", "2", "3", "4", "5", "6", "7", "8"] true =
      .ok [⟨"nfs_bytes",
        [("normalreadbytes", 1), ("normalwritebytes", 2), ("directreadbytes", 3),
         ("directwritebytes", 4), ("serverreadbytes", 5), ("serverwritebytes", 6),
         ("readpages", 7), ("writepages", 8)],
        [("mountpoint", "/mnt"), ("serverexport", "srv:/x")]⟩] ∧
    (processText anchoredMatch ⟨true, [], []⟩
      [["device", "srv:/x", "mounted", "on", "/mnt", "with", "fstype", "nfs"],
       ["bytes:", "1", "2", "3", "4", "5", "6", "7", "8"]]).acc =
      [⟨"nfs_bytes",
        [("normalreadbytes", 1), ("normalwritebytes", 2), ("directreadbytes", 3),
         ("directwritebytes", 4), ("serverreadbytes", 5), ("serverwritebytes", 6),
         ("readpages", 7), ("writepages", 8)],
        [("mountpoint", "/mnt"), ("serverexport", "srv:/x")]⟩] :=
  ⟨rfl, rfl, rfl, rfl, rfl⟩

theorem filter_excluded (MatchString : String → String → Except String Bool)
    (n : NFSClient) (d : String) (skip : Bool)
    (h : ∃ re ∈ n.ExcludeMounts, matched MatchString re d = true) :
    filter MatchString n d skip = true := by
  have hany : (n.ExcludeMounts.any fun re => matched MatchString re d) = true := by
    rw [List.any_eq_true]; exact h
  have hlen : n.ExcludeMounts.length > 0 := by
    obtain ⟨re, hre, _⟩ := h
    exact List.length_pos_of_mem hre
  simp only [filter, hlen, hany, if_true]

/-- One loop iteration on a line whose device (the new one, for a
mount-boundary line) matches an exclude pattern: nothing is emitted. -/
theorem processLine_excluded (MatchString : String → String → Except String Bool)
    (n : NFSClient) (st : State) (line : List String)
    (h : ∃ re ∈ n.ExcludeMounts, matched MatchString re
      (if isMountBoundary line then line.getD 4 "" else st.device) = true) :
    (processLine MatchString n st line).acc = st.acc ∧
    ((processLine MatchString n st line).panicked = none →
      (processLine MatchString n st line).device =
        (if isMountBoundary line then line.getD 4 "" else st.device)) := by
  unfold processLine gate
  cases hc : classify st line with
  | error e => simp
  | ok st1 =>
    obtain ⟨hd, _, _⟩ := classify_device st st1 line hc
    obtain ⟨ha, _⟩ := classify_acc st st1 line hc
    rw [← hd] at h
    have hf := filter_excluded MatchString n st1.device st1.skip h
    simp only [hf, Bool.not_true, Bool.false_and, Bool.false_eq_true, if_false]
    exact ⟨ha, fun _ => hd⟩

theorem processFrom_excluded (MatchString : String → String → Except String Bool)
    (n : NFSClient) (body : List (List String))
    (hbody : ∀ l ∈ body, isMountBoundary l = false) :
    ∀ st : State, (∃ re ∈ n.ExcludeMounts, matched MatchString re st.device = true) →
      (processFrom MatchString n st body).acc = st.acc := by
  induction body with
  | nil => intro st _; rfl
  | cons l ls ih =>
    intro st h
    cases hs : st.panicked with
    | some e => rw [processFrom_panicked MatchString n st _ e hs]
    | none =>
      simp only [processFrom, hs]
      have hl : isMountBoundary l = false := hbody l (List.mem_cons_self _ _)
      have h2 : ∃ re ∈ n.ExcludeMounts, matched MatchString re
          (if isMountBoundary l then l.getD 4 "" else st.device) = true := by
        simpa [hl] using h
      obtain ⟨ha, hd⟩ := processLine_excluded MatchString n st l h2
      cases hp : (processLine MatchString n st l).panicked with
      | some e => rw [processFrom_panicked MatchString n _ _ e hp, ha]
      | none =>
        rw [ih (fun x hx => hbody x (List.mem_cons_of_mem _ hx)), ha]
        rw [hd hp]
        simpa [hl] using h

/-- C4. Exclude wins over include: when token[4] of a mount-boundary line
matches an exclude pattern, the scan emits no record for that line and for the
lines after it up to the next mount-boundary line, whatever the include
patterns are. -/
theorem exclude_wins (MatchString : String → String → Except String Bool)
    (n : NFSClient) (pre : List (List String)) (boundary : List String)
    (body : List (List String))
    (hb : isMountBoundary boundary = true)
    (hbody : ∀ l ∈ body, isMountBoundary l = false)
    (hex : ∃ re ∈ n.ExcludeMounts, matched MatchString re (boundary.getD 4 "") = true) :
    (processText MatchString n (pre ++ boundary :: body)).acc =
      (processText MatchString n pre).acc := by
  unfold processText
  rw [processFrom_append]
  generalize processFrom MatchString n initState pre = st
  cases hs : st.panicked with
  | some e => rw [processFrom_panicked MatchString n st _ e hs]
  | none =>
    simp only [processFrom, hs]
    have h2 : ∃ re ∈ n.ExcludeMounts, matched MatchString re
        (if isMountBoundary boundary then boundary.getD 4 "" else st.device) = true := by
      simpa [hb] using hex
    obtain ⟨ha, hd⟩ := processLine_excluded MatchString n st boundary h2
    cases hp : (processLine MatchString n st boundary).panicked with
    | some e => rw [processFrom_panicked MatchString n _ _ e hp, ha]
    | none =>
      rw [processFrom_excluded MatchString n body hbody, ha]
      rw [hd hp]
      simpa [hb] using hex

theorem exclude_wins_witness :
    (processText anchoredMatch ⟨true, ["^/data"], ["^/data/home"]⟩
      ([["device", "srv:/y", "mounted", "on", "/data/tmp", "with", "fstype", "nfs"],
        ["RPC", "iostats", "version:", "1.0", "p/v:", "100003/3", "(nfs)"],
        ["READ:", "1", "1", "0", "4", "5", "0", "7", "8"]] ++
        ["device", "srv:/x", "mounted", "on", "/data/home", "with", "fstype", "nfs"] ::
        [["RPC", "iostats", "version:", "1.0", "p/v:", "100003/3", "(nfs)"],
         ["READ:", "10", "10", "0", "100", "200", "0", "5", "7"]])).acc =
    (processText anchoredMatch ⟨true, ["^/data"], ["^/data/home"]⟩
      [["device", "srv:/y", "mounted", "on", "/data/tmp", "with", "fstype", "nfs"],
       ["RPC", "iostats", "version:", "1.0", "p/v:", "100003/3", "(nfs)"],
       ["READ:", "1", "1", "0", "4", "5", "0", "7", "8"]]).acc :=
  exclude_wins anchoredMatch ⟨true, ["^/data"], ["^/data/home"]⟩
    [["device", "srv:/y", "mounted", "on", "/data/tmp", "with", "fstype", "nfs"],
     ["RPC", "iostats", "version:", "1.0", "p/v:", "100003/3", "(nfs)"],
     ["READ:", "1", "1", "0", "4", "5", "0", "7", "8"]]
    ["device", "srv:/x", "mounted", "on", "/data/home", "with", "fstype", "nfs"]
    [["RPC", "iostats", "version:", "1.0", "p/v:", "100003/3", "(nfs)"],
     ["READ:", "10", "10", "0", "100", "200", "0", "5", "7"]]
    rfl (by decide) ⟨"^/data/home", by simp, rfl⟩

theorem opsRecord_tags (table : List String) (first : String) (nline : List Int)
    (tags : List (String × String)) (fields : Fields) (ops : List Record)
    (h : opsRecord table first nline tags fields = .ok ops) : ∀ r ∈ ops, r.tags = tags := by
  unfold opsRecord at h
  split at h
  · split at h
    · cases h
    · cases h; simp
  · cases h; simp

theorem xprt_tags (line : List String) (nline : List Int) (tags : List (String × String))
    (fields : Fields) (out : List Record) (h : xprt line nline tags fields = .ok out) :
    ∀ r ∈ out, r.tags = tags := by
  unfold xprt at h
  split at h
  · cases h
  · split at h
    · split at h
      · split at h
        · cases h
        · cases h; simp
      · cases h; simp
    · split at h
      · split at h
        · split at h
          · cases h
          · cases h; simp
        · cases h; simp
      · cases h; simp

theorem operations_tags (version first : String) (nline : List Int) (fullstat : Bool)
    (tags : List (String × String)) (fields : Fields) (out : List Record)
    (h : operations version first nline fullstat tags fields = .ok out) :
    ∀ r ∈ out, r.tags = tags := by
  unfold operations at h
  split at h
  · cases h
  · rename_i f1 o1 hrw
    have h1 := readWrite_names _ _ _ _ _ _ hrw
    split at h
    · split at h
      · cases h
      · rename_i ops hops
        cases h
        intro r hr
        rcases List.mem_append.mp hr with hr | hr
        · exact (h1 r hr).2
        · exact opsRecord_tags _ _ _ _ _ _ hops r hr
    · split at h
      · split at h
        · cases h
        · rename_i ops hops
          cases h
          intro r hr
          rcases List.mem_append.mp hr with hr | hr
          · exact (h1 r hr).2
          · exact opsRecord_tags _ _ _ _ _ _ hops r hr
      · cases h
        intro r hr
        exact (h1 r hr).2

/-- Every record of a `parseStat` call carries the two tags built from its
first two arguments (source line 222). -/
theorem parseStat_tags (mountpoint serverexport version : String) (line : List String)
    (fullstat : Bool) (recs : List Record)
    (h : parseStat mountpoint serverexport version line fullstat = .ok recs) :
    ∀ r ∈ recs, r.tags = [("mountpoint", mountpoint), ("serverexport", serverexport)] := by
  unfold parseStat at h
  split at h
  · cases h
  · split at h
    · cases h
    · simp only at h
      split at h
      · split at h
        · cases h
        · cases h; simp
      · split at h
        · split at h
          · cases h
          · cases h; simp
        · split at h
          · exact xprt_tags _ _ _ _ _ h
          · split at h
            · exact operations_tags _ _ _ _ _ _ _ h
            · cases h; simp

theorem classify_boundary_ok (st : State) (line : List String)
    (hb : isMountBoundary line = true) : ∃ st1, classify st line = .ok st1 := by
  simp only [isMountBoundary, Bool.and_eq_true, decide_eq_true_eq, Bool.or_eq_true] at hb
  have hc : (inList line "fstype" && (inList line "nfs" || inList line "nfs4")
      && decide (line.length > 4)) = true := by
    simp only [Bool.and_eq_true, decide_eq_true_eq, Bool.or_eq_true]
    exact ⟨⟨hb.1.2, hb.2⟩, by omega⟩
  unfold classify
  rw [if_pos hc, index_lt line 4 (by omega), index_lt line 1 (by omega)]
  exact ⟨_, rfl⟩

/-- The device and export after one loop iteration, panic or not. -/
theorem processLine_ctx (MatchString : String → String → Except String Bool) (n : NFSClient)
    (st : State) (line : List String) :
    (processLine MatchString n st line).device =
      (if isMountBoundary line then line.getD 4 "" else st.device) ∧
    (processLine MatchString n st line).serverexport =
      (if isMountBoundary line then line.getD 1 "" else st.serverexport) := by
  unfold processLine gate
  cases hc : classify st line with
  | error e =>
    have hb : isMountBoundary line = false := by
      rw [Bool.eq_false_iff]
      intro hb
      obtain ⟨st1, h1⟩ := classify_boundary_ok st line hb
      rw [h1] at hc; cases hc
    simp [hb]
  | ok st1 =>
    obtain ⟨hd, he, _⟩ := classify_device st st1 line hc
    simp only
    split
    · split
      · exact ⟨hd, he⟩
      · exact ⟨hd, he⟩
    · exact ⟨hd, he⟩

/-- The records of one loop iteration are tagged with the device and export
the iteration ends with. -/
theorem processLine_tags (MatchString : String → String → Except String Bool) (n : NFSClient)
    (st : State) (line : List String) :
    ∃ new, (processLine MatchString n st line).acc = st.acc ++ new ∧
      ∀ r ∈ new, r.tags =
        [("mountpoint", (processLine MatchString n st line).device),
         ("serverexport", (processLine MatchString n st line).serverexport)] := by
  unfold processLine
  cases hg : gate MatchString n st line with
  | error e => exact ⟨[], by simp, by simp⟩
  | ok p =>
    obtain ⟨st2, offered⟩ := p
    have ha := (gate_acc MatchString n st st2 line offered hg).1
    simp only
    cases offered with
    | false => exact ⟨[], by simp [ha], by simp⟩
    | true =>
      simp only [if_true]
      split
      · exact ⟨[], by simp [ha], by simp⟩
      · rename_i recs hp
        exact ⟨recs, by simp [ha], parseStat_tags _ _ _ _ _ _ hp⟩

theorem processFrom_tags (MatchString : String → String → Except String Bool) (n : NFSClient)
    (body : List (List String)) (hbody : ∀ l ∈ body, isMountBoundary l = false) :
    ∀ st : State, ∃ new, (processFrom MatchString n st body).acc = st.acc ++ new ∧
      (processFrom MatchString n st body).device = st.device ∧
      (processFrom MatchString n st body).serverexport = st.serverexport ∧
      ∀ r ∈ new, r.tags = [("mountpoint", st.device), ("serverexport", st.serverexport)] := by
  induction body with
  | nil => intro st; exact ⟨[], by simp [processFrom], rfl, rfl, by simp⟩
  | cons l ls ih =>
    intro st
    cases hs : st.panicked with
    | some e =>
      rw [processFrom_panicked MatchString n st _ e hs]
      exact ⟨[], by simp, rfl, rfl, by simp⟩
    | none =>
      simp only [processFrom, hs]
      have hl : isMountBoundary l = false := hbody l (List.mem_cons_self _ _)
      obtain ⟨hd, he⟩ := processLine_ctx MatchString n st l
      simp only [hl, Bool.false_eq_true, if_false] at hd he
      obtain ⟨new1, ha1, ht1⟩ := processLine_tags MatchString n st l
      obtain ⟨new2, ha2, hd2, he2, ht2⟩ :=
        ih (fun x hx => hbody x (List.mem_cons_of_mem _ hx)) (processLine MatchString n st l)
      rw [hd, he] at ht1 ht2
      refine ⟨new1 ++ new2, by rw [ha2, ha1, List.append_assoc], by rw [hd2, hd],
        by rw [he2, he], ?_⟩
      intro r hr
      rcases List.mem_append.mp hr with h | h
      · exact ht1 r h
      · exact ht2 r h

/-- C5. After a mount-boundary line is processed the device is its token[4]
and the export its token[1], and every record emitted for that line and for the
lines after it up to the next mount-boundary line carries exactly the tags
`mountpoint = token[4]` and `serverexport = token[1]`. -/
theorem boundary_sets_tags (MatchString : String → String → Except String Bool)
    (n : NFSClient) (pre : List (List String)) (boundary : List String)
    (body : List (List String))
    (hb : isMountBoundary boundary = true)
    (hbody : ∀ l ∈ body, isMountBoundary l = false) :
    (processLine MatchString n (processText MatchString n pre) boundary).device
      = boundary.getD 4 "" ∧
    (processLine MatchString n (processText MatchString n pre) boundary).serverexport
      = boundary.getD 1 "" ∧
    ∃ new, (processText MatchString n (pre ++ boundary :: body)).acc =
        (processText MatchString n pre).acc ++ new ∧
      ∀ r ∈ new, r.tags =
        [("mountpoint", boundary.getD 4 ""), ("serverexport", boundary.getD 1 "")] := by
  obtain ⟨hd, he⟩ := processLine_ctx MatchString n (processText MatchString n pre) boundary
  simp only [hb, if_true] at hd he
  refine ⟨hd, he, ?_⟩
  unfold processText at hd he ⊢
  rw [processFrom_append]
  generalize processFrom MatchString n initState pre = st at hd he ⊢
  cases hs : st.panicked with
  | some e =>
    rw [processFrom_panicked MatchString n st _ e hs]
    exact ⟨[], by simp, by simp⟩
  | none =>
    simp only [processFrom, hs]
    obtain ⟨new1, ha1, ht1⟩ := processLine_tags MatchString n st boundary
    obtain ⟨new2, ha2, _, _, ht2⟩ :=
      processFrom_tags MatchString n body hbody (processLine MatchString n st boundary)
    rw [hd, he] at ht1 ht2
    refine ⟨new1 ++ new2, by rw [ha2, ha1, List.append_assoc], ?_⟩
    intro r hr
    rcases List.mem_append.mp hr with h | h
    · exact ht1 r h
    · exact ht2 r h

theorem boundary_sets_tags_witness :
    (processLine anchoredMatch ⟨true, [], []⟩ (processText anchoredMatch ⟨true, [], []⟩ [])
      ["device", "srv:/x", "mounted", "on", "/mnt", "with", "fstype", "nfs"]).device
      = ["device", "srv:/x", "mounted", "on", "/mnt", "with", "fstype", "nfs"].getD 4 "" ∧
    (processLine anchoredMatch ⟨true, [], []⟩ (processText anchoredMatch ⟨true, [], []⟩ [])
      ["device", "srv:/x", "mounted", "on", "/mnt", "with", "fstype", "nfs"]).serverexport
      = ["device", "srv:/x", "mounted", "on", "/mnt", "with", "fstype", "nfs"].getD 1 "" ∧
    ∃ new, (processText anchoredMatch ⟨true, [], []⟩
        ([] ++ ["device", "srv:/x", "mounted", "on", "/mnt", "with", "fstype", "nfs"] ::
          [["RPC", "iostats", "version:", "1.0", "p/v:", "100003/3", "(nfs)"],
           ["READ:", "10", "10", "0", "100", "200", "0", "5", "7"]])).acc =
        (processText anchoredMatch ⟨true, [], []⟩ []).acc ++ new ∧
      ∀ r ∈ new, r.tags =
        [("mountpoint",
            ["device", "srv:/x", "mounted", "on", "/mnt", "with", "fstype", "nfs"].getD 4 ""),
         ("serverexport",
            ["device", "srv:/x", "mounted", "on", "/mnt", "with", "fstype", "nfs"].getD 1 "")] :=
  boundary_sets_tags anchoredMatch ⟨true, [], []⟩ []
    ["device", "srv:/x", "mounted", "on", "/mnt", "with", "fstype", "nfs"]
    [["RPC", "iostats", "version:", "1.0", "p/v:", "100003/3", "(nfs)"],
     ["READ:", "10", "10", "0", "100", "200", "0", "5", "7"]]
    rfl (by decide)

/-- The protocol version after one loop iteration is the one its context
update left, panic or not. -/
theorem processLine_version (MatchString : String → String → Except String Bool)
    (n : NFSClient) (st st1 : State) (line : List String)
    (hc : classify st line = .ok st1) :
    (processLine MatchString n st line).version = st1.version := by
  unfold processLine gate
  rw [hc]
  simp only
  split
  · split <;> rfl
  · rfl

/-- C6, amended. For a version line whose token[5] has a second element `v`
when split on `/`: after the line is processed the protocol version is `v` if
the line is not also a mount-boundary line, and is unchanged if it is. -/
theorem version_line_sets_version (MatchString : String → String → Except String Bool)
    (n : NFSClient) (st : State) (line : List String) (v : String)
    (hv : isVersionLine line = true)
    (hs : index (Split (line.getD 5 "")) 1 = .ok v) :
    (processLine MatchString n st line).version =
      if isMountBoundary line then st.version else v := by
  by_cases hb : isMountBoundary line = true
  · obtain ⟨st1, h1⟩ := classify_boundary_ok st line hb
    rw [processLine_version MatchString n st st1 line h1, if_pos hb]
    unfold classify at h1
    simp only [isMountBoundary, Bool.and_eq_true, decide_eq_true_eq, Bool.or_eq_true] at hb
    have hc : (inList line "fstype" && (inList line "nfs" || inList line "nfs4")
        && decide (line.length > 4)) = true := by
      simp only [Bool.and_eq_true, decide_eq_true_eq, Bool.or_eq_true]
      exact ⟨⟨hb.1.2, hb.2⟩, by omega⟩
    rw [if_pos hc, index_lt line 4 (by omega), index_lt line 1 (by omega)] at h1
    cases h1; rfl
  · rw [if_neg hb]
    have hc : ¬ ((inList line "fstype" && (inList line "nfs" || inList line "nfs4")
        && decide (line.length > 4)) = true) := by
      intro hc
      apply hb
      simp only [Bool.and_eq_true, decide_eq_true_eq, Bool.or_eq_true] at hc
      simp only [isMountBoundary, Bool.and_eq_true, decide_eq_true_eq, Bool.or_eq_true]
      exact ⟨⟨by omega, hc.1.1⟩, hc.1.2⟩
    simp only [isVersionLine, Bool.and_eq_true, decide_eq_true_eq, Bool.or_eq_true] at hv
    have hc2 : ((inList line "(nfs)" || inList line "(nfs4)") && decide (line.length > 5))
        = true := by
      simp only [Bool.and_eq_true, decide_eq_true_eq, Bool.or_eq_true]
      exact ⟨hv.2, by omega⟩
    have h5 : line.getD 5 "" = line.get ⟨5, by omega⟩ := by
      simp [List.getD, List.getElem?_eq_getElem (show 5 < line.length by omega)]
    have h1 : classify st line = .ok { st with version := v } := by
      unfold classify
      rw [if_neg hc, if_pos hc2, index_lt line 5 (by omega)]
      simp only
      rw [← h5, hs]
    rw [processLine_version MatchString n st _ line h1]

theorem version_line_sets_version_witness :
    (processLine anchoredMatch ⟨false, [], []⟩ initState
      ["RPC", "iostats", "version:", "1.0", "p/v:", "100003/3", "(nfs)"]).version =
      if isMountBoundary ["RPC", "iostats", "version:", "1.0", "p/v:", "100003/3", "(nfs)"]
      then initState.version else "3" :=
  version_line_sets_version anchoredMatch ⟨false, [], []⟩ initState
    ["RPC", "iostats", "version:", "1.0", "p/v:", "100003/3", "(nfs)"] "3" rfl rfl

/-- C6 as stated fails on a line that is both a mount-boundary line and a
version line: token[5] is `100003/3`, and the protocol version stays unset. -/
theorem version_line_counterexample :
    isVersionLine ["device", "srv:/x", "fstype", "nfs", "/mnt", "100003/3", "(nfs)"] = true ∧
    index (Split (["device", "srv:/x", "fstype", "nfs", "/mnt", "100003/3", "(nfs)"].getD 5 ""))
      1 = .ok "3" ∧
    (processLine anchoredMatch ⟨false, [], []⟩ initState
      ["device", "srv:/x", "fstype", "nfs", "/mnt", "100003/3", "(nfs)"]).version = "" ∧
    (processLine anchoredMatch ⟨false, [], []⟩ initState
      ["device", "srv:/x", "fstype", "nfs", "/mnt", "100003/3", "(nfs)"]).version ≠ "3" :=
  ⟨rfl, rfl, rfl, by decide⟩

/-- C7. The scan is not total. A version line whose token[5] has no `/` ends it
with an index out of range, before the READ line that follows is decoded; and
so does, in full-statistics mode, a `xprt: tcp` line cut short after 7 values. -/
theorem scan_panics :
    (processText anchoredMatch ⟨false, [], []⟩
      [["device", "srv:/x", "mounted", "on", "/mnt", "with", "fstype", "nfs"],
       ["RPC", "iostats", "version:", "1.0", "p/v:", "100003", "(nfs)"],
       ["READ:", "10", "10", "0", "100", "200", "0", "5", "7"]]).panicked
      = some "index out of range" ∧
    (processText anchoredMatch ⟨false, [], []⟩
      [["device", "srv:/x", "mounted", "on", "/mnt", "with", "fstype", "nfs"],
       ["RPC", "iostats", "version:", "1.0", "p/v:", "100003", "(nfs)"],
       ["READ:", "10", "10", "0", "100", "200", "0", "5", "7"]]).acc = [] ∧
    (processText anchoredMatch ⟨true, [], []⟩
      [["device", "srv:/x", "mounted", "on", "/mnt", "with", "fstype", "nfs"],
       ["xprt:", "tcp", "832", "0", "1", "0", "11", "6428", "6428"]]).panicked
      = some "index out of range" :=
  ⟨rfl, rfl, rfl⟩

theorem setField_append (fields : Fields) (k : String) (v : Int)
    (h : ∀ p ∈ fields, p.1 ≠ k) : setField fields k v = fields ++ [(k, v)] := by
  induction fields with
  | nil => rfl
  | cons p ps ih =>
    obtain ⟨k0, v0⟩ := p
    have h0 : k0 ≠ k := h (k0, v0) (List.mem_cons_self _ _)
    simp only [setField, if_neg h0, List.cons_append]
    rw [ih (fun q hq => h q (List.mem_cons_of_mem _ hq))]

/-- The table loop on a table without repeated names, writing to a map that
holds none of them, appends one field per table entry, in order. -/
theorem rangeFill_zip (table : List String) :
    ∀ (i : Nat) (nline : List Int) (fields : Fields), table.Nodup →
      (∀ p ∈ fields, p.1 ∉ table) → i + table.length ≤ nline.length →
      rangeFill table i nline fields = .ok (fields ++ table.zip (nline.drop i)) := by
  induction table with
  | nil => intro i nline fields _ _ _; simp [rangeFill]
  | cons t ts ih =>
    intro i nline fields hnd hk hlen
    simp only [List.length_cons] at hlen
    have hi : i < nline.length := by omega
    rw [rangeFill, index_lt nline i hi]
    simp only
    rw [setField_append fields t _ (fun p hp hpt => hk p hp (by rw [hpt]; exact List.mem_cons_self _ _))]
    rw [ih (i + 1) nline _ (List.nodup_cons.mp hnd).2 ?_ (by omega)]
    · rw [List.drop_eq_getElem_cons hi, List.zip_cons_cons]
      simp
    · intro p hp
      rcases List.mem_append.mp hp with h | h
      · exact fun hm => hk p h (List.mem_cons_of_mem _ hm)
      · simp only [List.mem_singleton] at h
        subst h
        exact (List.nodup_cons.mp hnd).1

theorem operations_other (version first : String) (nline : List Int) (fullstat : Bool)
    (tags : List (String × String)) (fields : Fields)
    (h3 : inList nfs3Fields first = false) (h4 : inList nfs4Fields first = false) :
    operations version first nline fullstat tags fields = .ok [] := by
  simp [operations, readWrite, opsRecord, h3, h4]

/-- C8. In full-statistics mode, on a line of category events (resp. bytes),
for every protocol version: `parseStat` emits exactly one record `nfs_events`
(resp. `nfs_bytes`) when the line has at least 27 (resp. 8) numeric tokens, with
one field per table entry, `table[i]` holding numeric token `i`; with fewer
numeric tokens it emits no record. -/
theorem parseStat_events_bytes (mountpoint serverexport version tok : String)
    (rest : List String) (cat name : String) (table : List String)
    (hcat : (cat = "events" ∧ name = "nfs_events" ∧ table = eventsFields) ∨
      (cat = "bytes" ∧ name = "nfs_bytes" ∧ table = bytesFields))
    (hfirst : replaceColon tok = cat) :
    ∃ n, convert (tok :: rest) = .ok n ∧ n.length = rest.length ∧
      parseStat mountpoint serverexport version (tok :: rest) true =
        .ok (if table.length ≤ n.length then
            [⟨name, table.zip n, [("mountpoint", mountpoint), ("serverexport", serverexport)]⟩]
          else []) ∧
      (table.length ≤ n.length → (table.zip n).length = table.length) := by
  refine ⟨rest.map fun l => (ParseInt l).1, rfl, by simp, ?_, ?_⟩
  · generalize hn : (rest.map fun l => (ParseInt l).1) = n
    have hconv : convert (tok :: rest) = .ok n := by rw [← hn]; rfl
    have hidx : index (tok :: rest) 0 = .ok tok := by simp [index]
    unfold parseStat
    rw [hconv, hidx]
    simp only [hfirst, Bool.true_and]
    rcases hcat with ⟨h1, h2, h3⟩ | ⟨h1, h2, h3⟩
    · subst h1; subst h2; subst h3
      by_cases hl : eventsFields.length ≤ n.length
      · have hfill := rangeFill_zip eventsFields 0 n [] (by decide) (by simp) (by omega)
        simp only [List.drop_zero, List.nil_append] at hfill
        simp [hl, hfill]
      · have hb : ¬ ("events" = "bytes") := by decide
        have hx : ¬ ("events" = "xprt") := by decide
        simp only [hl, hb, hx, decide_True, decide_False, Bool.true_and, Bool.false_and,
          Bool.false_eq_true, if_false, ge_iff_le]
        rw [operations_other version "events" n true _ _ rfl rfl]
        simp
    · subst h1; subst h2; subst h3
      have he : ¬ ("bytes" = "events") := by decide
      by_cases hl : bytesFields.length ≤ n.length
      · have hfill := rangeFill_zip bytesFields 0 n [] (by decide) (by simp) (by omega)
        simp only [List.drop_zero, List.nil_append] at hfill
        simp [hl, hfill, he]
      · have hx : ¬ ("bytes" = "xprt") := by decide
        simp only [hl, he, hx, decide_True, decide_False, Bool.true_and, Bool.false_and,
          Bool.false_eq_true, if_false, ge_iff_le]
        rw [operations_other version "bytes" n true _ _ rfl rfl]
        simp
  · intro h
    rw [List.length_zip]
    exact Nat.min_eq_left h

theorem parseStat_events_bytes_witness :
    ∃ n, convert ("events:" :: ["1", "2", "3", "4", "5", "6", "7", "8", "9", "10", "11", "12",
        "13", "14", "15", "16", "17", "18", "19", "20", "21", "22", "23", "24", "25", "26",
        "27"]) = .ok n ∧
      n.length = ["1", "2", "3", "4", "5", "6", "7", "8", "9", "10", "11", "12",
        "13", "14", "15", "16", "17", "18", "19", "20", "21", "22", "23", "24", "25", "26",
        "27"].length ∧
      parseStat "/mnt" "srv:/x" "" ("events:" :: ["1", "2", "3", "4", "5", "6", "7", "8", "9",
        "10", "11", "12", "13", "14", "15", "16", "17", "18", "19", "20", "21", "22", "23",
        "24", "25", "26", "27"]) true =
        .ok (if eventsFields.length ≤ n.length then
            [⟨"nfs_events", eventsFields.zip n,
              [("mountpoint", "/mnt"), ("serverexport", "srv:/x")]⟩]
          else []) ∧
      (eventsFields.length ≤ n.length → (eventsFields.zip n).length = eventsFields.length) :=
  parseStat_events_bytes "/mnt" "srv:/x" "" "events:"
    ["1", "2", "3", "4", "5", "6", "7", "8", "9", "10", "11", "12", "13", "14", "15", "16",
     "17", "18", "19", "20", "21", "22", "23", "24", "25", "26", "27"]
    "events" "nfs_events" eventsFields (Or.inl ⟨rfl, rfl, rfl⟩) (by decide)

/-- C9. Evaluation at the failing inputs: in full-statistics mode a
`xprt: tcp` line with 7 converted tokens, and a `xprt: udp` line with 4, pass
the length test of the source and then panic on `nline[i+2]`; a tcp line with 6
converted tokens is skipped. -/
theorem xprt_short_line_panics :
    parseStat "/mnt" "srv:/x" "3" ["xprt:", "tcp", "832", "0", "1", "0", "11", "6428"] true
      = .error "index out of range" ∧
    parseStat "/mnt" "srv:/x" "3" ["xprt:", "udp", "832", "0", "1"] true
      = .error "index out of range" ∧
    parseStat "/mnt" "srv:/x" "3" ["xprt:", "tcp", "832", "0", "1", "0", "11"] true = .ok [] :=
  ⟨rfl, rfl, rfl⟩

/-- C10. Evaluation at the failing input: in full-statistics mode, version "3",
the `nfs_ops` record of a READ line with 8 numeric tokens holds the five
`read_*` fields of the `nfsstat_read` record besides the eight `READ_*` fields;
the `nfs_ops` record of a READLINK line holds its eight fields only. -/
theorem ops_record_of_read_polluted :
    parseStat "/mnt" "srv:/x" "3" ["READ:", "10", "10", "0", "100", "200", "0", "5", "7"] true =
      .ok [⟨"nfsstat_read",
              [("read_ops", 10), ("read_retrans", 0), ("read_bytes", 300), ("read_rtt", 5),
               ("read_exe", 7)],
              [("mountpoint", "/mnt"), ("serverexport", "srv:/x")]⟩,
           ⟨"nfs_ops",
              [("read_ops", 10), ("read_retrans", 0), ("read_bytes", 300), ("read_rtt", 5),
               ("read_exe", 7), ("READ_ops", 10), ("READ_trans", 10), ("READ_timeouts", 0),
               ("READ_bytes_sent", 100), ("READ_bytes_recv", 200), ("READ_queue_time", 0),
               ("READ_response_time", 5), ("READ_total_time", 7)],
              [("mountpoint", "/mnt"), ("serverexport", "srv:/x")]⟩] ∧
    parseStat "/mnt" "srv:/x" "3" ["READLINK:", "10", "10", "0", "100", "200", "0", "5", "7"]
        true =
      .ok [⟨"nfs_ops",
              [("READLINK_ops", 10), ("READLINK_trans", 10), ("READLINK_timeouts", 0),
               ("READLINK_bytes_sent", 100), ("READLINK_bytes_recv", 200),
               ("READLINK_queue_time", 0), ("READLINK_response_time", 5),
               ("READLINK_total_time", 7)],
              [("mountpoint", "/mnt"), ("serverexport", "srv:/x")]⟩] :=
  ⟨rfl, rfl⟩

theorem digitsValue_ge (cs : List Char) : ∀ n, n ≤ digitsValue cs n := by
  induction cs with
  | nil => intro n; exact Nat.le_refl n
  | cons c cs ih =>
    intro n
    have := ih (n * 10 + (c.toNat - 48))
    simp only [digitsValue]
    omega

/-- The digit loop of `ParseUint` against the digits it reads: a range error
as soon as the leading digits exceed 64 bits, else a syntax error at the first
other character, else the value. -/
theorem parseUintLoop_eq (cs : List Char) :
    ∀ n, n ≤ maxUint64 →
      parseUintLoop cs n =
        if digitsValue (cs.takeWhile Char.isDigit) n > maxUint64 then
          (maxUint64, some .outOfRange)
        else if cs.all Char.isDigit then (digitsValue cs n, none)
        else (0, some .malformed) := by
  induction cs with
  | nil =>
    intro n hn
    simp [parseUintLoop, digitsValue, Nat.not_lt.mpr hn]
  | cons c cs ih =>
    intro n hn
    by_cases hc : c.isDigit = true
    · simp only [parseUintLoop, hc, if_true, List.takeWhile_cons, digitsValue, List.all_cons,
        Bool.true_and]
      have hge := digitsValue_ge (cs.takeWhile Char.isDigit) (n * 10 + (c.toNat - 48))
      by_cases h1 : n ≥ maxUint64 / 10 + 1
      · have : n * 10 + (c.toNat - 48) > maxUint64 := by
          simp only [maxUint64] at h1 ⊢; omega
        rw [if_pos h1, if_pos (by omega)]
      · rw [if_neg h1]
        by_cases h2 : n * 10 + (c.toNat - 48) > maxUint64
        · simp only [h2, if_true]
          rw [if_pos (by omega)]
        · simp only [h2, if_false]
          exact ih _ (by omega)
    · have hc2 : c.isDigit = false := by simpa using hc
      simp [parseUintLoop, hc2, List.takeWhile_cons, digitsValue, Nat.not_lt.mpr hn]

theorem ParseUint_eq (body : List Char) :
    ParseUint body =
      if digitsValue (body.takeWhile Char.isDigit) 0 > maxUint64 then
        (maxUint64, some .outOfRange)
      else if body ≠ [] ∧ body.all Char.isDigit then (digitsValue body 0, none)
      else (0, some .malformed) := by
  cases body with
  | nil => simp [ParseUint, digitsValue, maxUint64]
  | cons c cs =>
    simp only [ParseUint, ne_eq, reduceCtorEq, not_false_eq_true, true_and]
    exact parseUintLoop_eq (c :: cs) 0 (Nat.zero_le _)

theorem ParseInt_malformed (s : String) (u : Nat)
    (h : ParseUint (unsignedPart s) = (u, some .malformed)) :
    ParseInt s = (0, some .malformed) := by
  unfold ParseInt
  unfold unsignedPart at h
  cases hd : s.data with
  | nil => rfl
  | cons c cs =>
    rw [hd] at h
    simp only [beq_iff_eq, Bool.or_eq_true]
    simp only at h
    rw [h]

theorem ParseInt_unsigned (s : String) (un : Nat) (e : Option NumError)
    (h : ParseUint (unsignedPart s) = (un, e)) (he : e ≠ some .malformed) :
    ParseInt s =
      if !isNegative s && decide (un ≥ 2 ^ 63) then ((2 : Int) ^ 63 - 1, some .outOfRange)
      else if isNegative s && decide (un > 2 ^ 63) then (-(2 : Int) ^ 63, some .outOfRange)
      else (if isNegative s then -(un : Int) else (un : Int), none) := by
  unfold ParseInt
  unfold unsignedPart at h
  unfold isNegative
  cases hd : s.data with
  | nil =>
    rw [hd] at h
    simp only [ParseUint, Prod.mk.injEq] at h
    exact absurd h.2.symm he
  | cons c cs =>
    rw [hd] at h
    simp only [beq_iff_eq, Bool.or_eq_true]
    simp only at h
    rw [h]
    cases e with
    | none => by_cases hc : c = '-' <;> simp [hc]
    | some k =>
      cases k with
      | malformed => exact absurd rfl he
      | outOfRange => by_cases hc : c = '-' <;> simp [hc]

/-- The value `ParseInt` returns, against the integer the token denotes. -/
theorem ParseInt_fst (s : String) :
    (ParseInt s).1 =
      if leadingDigits s > maxUint64 then
        (if isNegative s then -(2 ^ 63) else 2 ^ 63 - 1)
      else
        match denoted s with
        | some v => clamp64 v
        | none => 0 := by
  have hu := ParseUint_eq (unsignedPart s)
  unfold leadingDigits denoted
  by_cases h1 : digitsValue ((unsignedPart s).takeWhile Char.isDigit) 0 > maxUint64
  · rw [if_pos h1] at hu
    rw [if_pos h1, ParseInt_unsigned s _ _ hu (by simp)]
    cases isNegative s <;> simp [maxUint64]
  · rw [if_neg h1] at hu
    rw [if_neg h1]
    by_cases h2 : unsignedPart s ≠ [] ∧ (unsignedPart s).all Char.isDigit = true
    · rw [if_pos h2] at hu
      rw [if_pos h2, ParseInt_unsigned s _ _ hu (by simp)]
      have hall : (unsignedPart s).takeWhile Char.isDigit = unsignedPart s := by
        rw [List.takeWhile_eq_self_iff]
        intro c hc
        exact List.all_eq_true.mp h2.2 c hc
      rw [hall] at h1
      generalize digitsValue (unsignedPart s) 0 = v at h1
      simp only [maxUint64] at h1
      cases isNegative s
      · simp only [Bool.not_false, Bool.true_and, decide_eq_true_eq, Bool.false_and,
          Bool.false_eq_true, if_false, clamp64]
        split_ifs <;> simp only [] <;> omega
      · simp only [Bool.not_true, Bool.false_and, Bool.false_eq_true, if_false, Bool.true_and,
          decide_eq_true_eq, if_true, clamp64]
        split_ifs <;> simp only [] <;> omega
    · rw [if_neg h2] at hu
      rw [if_neg h2, ParseInt_malformed s _ hu]

theorem ParseInt_denoted (s : String) (v : Int) (h : denoted s = some v) :
    (ParseInt s).1 = clamp64 v := by
  rw [ParseInt_fst, h]
  unfold denoted at h
  split at h
  · rename_i h2
    have hall : (unsignedPart s).takeWhile Char.isDigit = unsignedPart s := by
      rw [List.takeWhile_eq_self_iff]
      intro c hc
      exact List.all_eq_true.mp h2.2 c hc
    simp only [Option.some.injEq] at h
    unfold leadingDigits
    rw [hall]
    generalize digitsValue (unsignedPart s) 0 = d at h
    subst h
    simp only [maxUint64, clamp64]
    norm_num
    cases isNegative s
    · simp only [Bool.false_eq_true, if_false]
      split_ifs <;> omega
    · simp only [if_true]
      split_ifs <;> omega
  · cases h

/-- C11, amended. For every non-empty token list `convert` returns a list of
length `len(line) - 1`. Its i-th element is the integer token i+1 denotes in
base 10 when that integer fits in 64 bits signed; it is the nearest bound,
`2^63 - 1` or `-2^63`, when the token denotes an integer outside that range, and
also when the token is not a decimal integer but starts (after its sign) with
digits that already exceed 64 bits; it is 0 for every other token. -/
theorem convert_values (tok : String) (rest : List String) (i : Nat) (hi : i < rest.length) :
    ∃ n, convert (tok :: rest) = .ok n ∧ n.length = (tok :: rest).length - 1 ∧
      (∀ v, denoted (rest.getD i "") = some v → -(2 ^ 63) ≤ v → v ≤ 2 ^ 63 - 1 →
        n.getD i 0 = v) ∧
      (∀ v, denoted (rest.getD i "") = some v → v > 2 ^ 63 - 1 → n.getD i 0 = 2 ^ 63 - 1) ∧
      (∀ v, denoted (rest.getD i "") = some v → v < -(2 ^ 63) → n.getD i 0 = -(2 ^ 63)) ∧
      (denoted (rest.getD i "") = none → leadingDigits (rest.getD i "") ≤ maxUint64 →
        n.getD i 0 = 0) ∧
      (denoted (rest.getD i "") = none → leadingDigits (rest.getD i "") > maxUint64 →
        n.getD i 0 = if isNegative (rest.getD i "") then -(2 ^ 63) else 2 ^ 63 - 1) := by
  have hget : (rest.map fun l => (ParseInt l).1).getD i 0 = (ParseInt (rest.getD i "")).1 := by
    simp [List.getD, List.getElem?_eq_getElem hi]
  refine ⟨rest.map fun l => (ParseInt l).1, rfl, by simp, ?_, ?_, ?_, ?_, ?_⟩
  · intro v hv h1 h2
    rw [hget, ParseInt_denoted _ v hv, clamp64]
    split_ifs <;> omega
  · intro v hv h1
    rw [hget, ParseInt_denoted _ v hv, clamp64, if_pos h1]
  · intro v hv h1
    rw [hget, ParseInt_denoted _ v hv, clamp64]
    split_ifs <;> omega
  · intro hv h1
    rw [hget, ParseInt_fst, if_neg (by omega), hv]
  · intro hv h1
    rw [hget, ParseInt_fst, if_pos h1]

theorem convert_values_witness :
    ∃ n, convert ("xprt:" :: ["tcp", "-12", "+", "", "9223372036854775807"]) = .ok n ∧
      n.length = ("xprt:" :: ["tcp", "-12", "+", "", "9223372036854775807"]).length - 1 ∧
      (∀ v, denoted (["tcp", "-12", "+", "", "9223372036854775807"].getD 1 "") = some v →
        -(2 ^ 63) ≤ v → v ≤ 2 ^ 63 - 1 → n.getD 1 0 = v) ∧
      (∀ v, denoted (["tcp", "-12", "+", "", "9223372036854775807"].getD 1 "") = some v →
        v > 2 ^ 63 - 1 → n.getD 1 0 = 2 ^ 63 - 1) ∧
      (∀ v, denoted (["tcp", "-12", "+", "", "9223372036854775807"].getD 1 "") = some v →
        v < -(2 ^ 63) → n.getD 1 0 = -(2 ^ 63)) ∧
      (denoted (["tcp", "-12", "+", "", "9223372036854775807"].getD 1 "") = none →
        leadingDigits (["tcp", "-12", "+", "", "9223372036854775807"].getD 1 "") ≤ maxUint64 →
        n.getD 1 0 = 0) ∧
      (denoted (["tcp", "-12", "+", "", "9223372036854775807"].getD 1 "") = none →
        leadingDigits (["tcp", "-12", "+", "", "9223372036854775807"].getD 1 "") > maxUint64 →
        n.getD 1 0 =
          if isNegative (["tcp", "-12", "+", "", "9223372036854775807"].getD 1 "")
          then -(2 ^ 63) else 2 ^ 63 - 1) :=
  convert_values "xprt:" ["tcp", "-12", "+", "", "9223372036854775807"] 1 (by decide)

/-- C11 as stated fails: the token `9223372036854775808` denotes an integer
outside the signed 64-bit range and `convert` yields `2^63 - 1` for it, not 0;
likewise `-2^63` below the range, and `2^63 - 1` for digits followed by a letter
once the digits exceed 64 bits. Other unparsable tokens give 0. -/
theorem convert_out_of_range_counterexample :
    denoted "9223372036854775808" = some 9223372036854775808 ∧
    convert ["bytes:", "9223372036854775808", "-9223372036854775809",
        "99999999999999999999x", "tcp", "+", ""] =
      .ok [9223372036854775807, -9223372036854775808, 9223372036854775807, 0, 0, 0] :=
  ⟨rfl, rfl⟩

/-- The scan depends on the include and exclude lists only through the filter
decisions they give. -/
theorem processFrom_congr (MatchString : String → String → Except String Bool)
    (n1 n2 : NFSClient) (hfull : n1.Fullstat = n2.Fullstat)
    (hfilter : ∀ d skip, filter MatchString n1 d skip = filter MatchString n2 d skip)
    (lines : List (List String)) :
    ∀ st : State, processFrom MatchString n1 st lines = processFrom MatchString n2 st lines := by
  have hline : ∀ st line, processLine MatchString n1 st line =
      processLine MatchString n2 st line := by
    intro st line
    simp only [processLine, gate, hfilter, hfull]
  induction lines with
  | nil => intro st; rfl
  | cons l ls ih =>
    intro st
    simp only [processFrom, hline, ih]

theorem any_matched_map (MatchString : String → String → Except String Bool)
    (f : String → String) (d : String)
    (hf : ∀ re, matched MatchString (f re) d = matched MatchString re d) (l : List String) :
    ((l.map f).any fun re => matched MatchString re d) =
      (l.any fun re => matched MatchString re d) := by
  induction l with
  | nil => rfl
  | cons a as ih => simp only [List.map_cons, List.any_cons, ih, hf]

theorem matched_malformed (MatchString : String → String → Except String Bool)
    (p : String) (hp : ∀ s, ∃ e, MatchString p s = .error e) (d : String) :
    matched MatchString p d = false := by
  obtain ⟨e, he⟩ := hp d
  simp [matched, he]

/-- C12. A malformed pattern (one `regexp.MatchString` reports an error for)
is treated as non-matching: replacing malformed patterns of the include and
exclude lists by patterns that match no string leaves the whole result of the
scan unchanged, the emitted records and whether and where it stopped; the
filter itself never fails, the only failure before the `parseStat` call being
that of the context update; a malformed pattern matches no device, and adding
one to the exclude list changes nothing, so it never causes a mount to be
skipped. -/
theorem malformed_pattern_non_matching
    (MatchString : String → String → Except String Bool) (n : NFSClient)
    (lines : List (List String)) (f : String → String) (p : String)
    (hf : ∀ re, f re = re ∨
      ((∀ s, ∃ e, MatchString re s = .error e) ∧ ∀ s, MatchString (f re) s = .ok false))
    (hp : ∀ s, ∃ e, MatchString p s = .error e) :
    processText MatchString ⟨n.Fullstat, n.IncludeMounts.map f, n.ExcludeMounts.map f⟩ lines
      = processText MatchString n lines ∧
    (∀ st line e, gate MatchString n st line = .error e ↔ classify st line = .error e) ∧
    (∀ d, matched MatchString p d = false) ∧
    processText MatchString ⟨n.Fullstat, n.IncludeMounts, p :: n.ExcludeMounts⟩ lines
      = processText MatchString n lines := by
  have hm : ∀ d re, matched MatchString (f re) d = matched MatchString re d := by
    intro d re
    rcases hf re with h | ⟨h1, h2⟩
    · rw [h]
    · rw [matched_malformed MatchString re h1 d]
      simp [matched, h2 d]
  refine ⟨?_, ?_, matched_malformed MatchString p hp, ?_⟩
  · unfold processText
    refine processFrom_congr MatchString
      ⟨n.Fullstat, n.IncludeMounts.map f, n.ExcludeMounts.map f⟩ n rfl ?_ lines initState
    intro d skip
    simp only [filter, List.length_map, any_matched_map MatchString f d (hm d)]
  · intro st line e
    unfold gate
    cases classify st line with
    | error e1 => simp
    | ok st1 => simp
  · unfold processText
    refine processFrom_congr MatchString
      ⟨n.Fullstat, n.IncludeMounts, p :: n.ExcludeMounts⟩ n rfl ?_ lines initState
    intro d skip
    simp only [filter, List.any_cons, matched_malformed MatchString p hp d, Bool.false_or,
      List.length_cons, gt_iff_lt, Nat.zero_lt_succ, if_true]
    cases n.ExcludeMounts with
    | nil => simp
    | cons a as => simp

theorem malformed_pattern_non_matching_witness :
    processText sampleMatch
        ⟨false, ([] : List String).map (fun re => if re = "(" then "a^" else re),
          ["(", "^/data"].map (fun re => if re = "(" then "a^" else re)⟩
        [["device", "srv:/x", "mounted", "on", "/mnt", "with", "fstype", "nfs"],
         ["RPC", "iostats", "version:", "1.0", "p/v:", "100003/3", "(nfs)"],
         ["READ:", "10", "10", "0", "100", "200", "0", "5", "7"]]
      = processText sampleMatch ⟨false, [], ["(", "^/data"]⟩
        [["device", "srv:/x", "mounted", "on", "/mnt", "with", "fstype", "nfs"],
         ["RPC", "iostats", "version:", "1.0", "p/v:", "100003/3", "(nfs)"],
         ["READ:", "10", "10", "0", "100", "200", "0", "5", "7"]] ∧
    (∀ st line e, gate sampleMatch ⟨false, [], ["(", "^/data"]⟩ st line = .error e ↔
      classify st line = .error e) ∧
    (∀ d, matched sampleMatch "(" d = false) ∧
    processText sampleMatch ⟨false, [], "(" :: ["(", "^/data"]⟩
        [["device", "srv:/x", "mounted", "on", "/mnt", "with", "fstype", "nfs"],
         ["RPC", "iostats", "version:", "1.0", "p/v:", "100003/3", "(nfs)"],
         ["READ:", "10", "10", "0", "100", "200", "0", "5", "7"]]
      = processText sampleMatch ⟨false, [], ["(", "^/data"]⟩
        [["device", "srv:/x", "mounted", "on", "/mnt", "with", "fstype", "nfs"],
         ["RPC", "iostats", "version:", "1.0", "p/v:", "100003/3", "(nfs)"],
         ["READ:", "10", "10", "0", "100", "200", "0", "5", "7"]] :=
  malformed_pattern_non_matching sampleMatch ⟨false, [], ["(", "^/data"]⟩
    [["device", "srv:/x", "mounted", "on", "/mnt", "with", "fstype", "nfs"],
     ["RPC", "iostats", "version:", "1.0", "p/v:", "100003/3", "(nfs)"],
     ["READ:", "10", "10", "0", "100", "200", "0", "5", "7"]]
    (fun re => if re = "(" then "a^" else re) "("
    (fun re => by
      by_cases h : re = "("
      · subst h
        exact Or.inr ⟨fun s => ⟨_, rfl⟩, fun s => rfl⟩
      · exact Or.inl (by simp [h]))
    (fun s => ⟨_, rfl⟩)

/-- C13, amended. The NFSv3 operation table has 22 entries and the NFSv4
operation table has 59; the per-operation table is exactly `ops, trans,
timeouts, bytes_sent, bytes_recv, queue_time, response_time, total_time`; the
events table has 27 entries, the bytes table 8, the two transport tables 9 and
6; no table contains a duplicate name. -/
theorem field_table_shapes :
    nfs3Fields.length = 22 ∧ nfs4Fields.length = 59 ∧
    nfsopFields = ["ops", "trans", "timeouts", "bytes_sent", "bytes_recv", "queue_time",
      "response_time", "total_time"] ∧
    eventsFields.length = 27 ∧ bytesFields.length = 8 ∧
    xprttcpFields.length = 9 ∧ xprtudpFields.length = 6 ∧
    nfs3Fields.Nodup ∧ nfs4Fields.Nodup ∧ nfsopFields.Nodup ∧ eventsFields.Nodup ∧
    bytesFields.Nodup ∧ xprttcpFields.Nodup ∧ xprtudpFields.Nodup := by
  refine ⟨rfl, rfl, rfl, rfl, rfl, rfl, rfl, ?_, ?_, ?_, ?_, ?_, ?_, ?_⟩ <;> decide


/-- C13 as stated fails: the NFSv4 operation table of the source has 59
entries, not 58. -/
theorem nfs4_table_counterexample : nfs4Fields.length = 59 ∧ ¬ (nfs4Fields.length = 58) := by
  decide

theorem classify_withAcc (pre : List Record) (st : State) (line : List String) :
    classify (withAcc pre st) line =
      match classify st line with
      | .ok st1 => .ok (withAcc pre st1)
      | .error e => .error e := by
  unfold classify
  split
  · cases index line 4 <;> cases index line 1 <;> rfl
  · split
    · cases index line 5 with
      | error e => rfl
      | ok t =>
        simp only []
        cases index (Split t) 1 <;> rfl
    · rfl

theorem processLine_withAcc (MatchString : String → String → Except String Bool)
    (n : NFSClient) (pre : List Record) (st : State) (line : List String) :
    processLine MatchString n (withAcc pre st) line =
      withAcc pre (processLine MatchString n st line) := by
  unfold processLine gate
  rw [classify_withAcc]
  cases classify st line with
  | error e => rfl
  | ok st1 =>
    simp only [withAcc]
    split
    · split
      · rfl
      · simp [List.append_assoc]
    · rfl

theorem processFrom_withAcc (MatchString : String → String → Except String Bool)
    (n : NFSClient) (pre : List Record) (lines : List (List String)) :
    ∀ st : State, processFrom MatchString n (withAcc pre st) lines =
      withAcc pre (processFrom MatchString n st lines) := by
  induction lines with
  | nil => intro st; rfl
  | cons l ls ih =>
    intro st
    simp only [processFrom]
    have hp : (withAcc pre st).panicked = st.panicked := rfl
    rw [hp]
    cases st.panicked with
    | some e => rfl
    | none =>
      simp only
      rw [processLine_withAcc, ih]

/-- C14. The scan is a function of the lines and the configuration: it starts
from the same fresh loop variables whatever came before, so a scan made on an
accumulator that already holds records appends exactly the records the scan
emits on an empty one, and stops in the same way; two scans of the same lines
with the same configuration emit the same sequence twice. -/
theorem scans_independent (MatchString : String → String → Except String Bool)
    (n : NFSClient) (lines : List (List String)) (acc0 : List Record) :
    (processTextOn MatchString n acc0 lines).acc =
      acc0 ++ (processText MatchString n lines).acc ∧
    (processTextOn MatchString n acc0 lines).panicked =
      (processText MatchString n lines).panicked ∧
    (processTextOn MatchString n (processText MatchString n lines).acc lines).acc =
      (processText MatchString n lines).acc ++ (processText MatchString n lines).acc := by
  have h : ∀ acc1, processTextOn MatchString n acc1 lines =
      withAcc acc1 (processText MatchString n lines) := by
    intro acc1
    unfold processTextOn processText
    rw [← processFrom_withAcc]
    simp [withAcc, initState]
  exact ⟨by rw [h]; rfl, by rw [h]; rfl, by rw [h]; rfl⟩

theorem classify_version_kept (st st1 : State) (line : List String)
    (hc : classify st line = .ok st1)
    (h : isMountBoundary line = true ∨ isVersionLine line = false) :
    st1.version = st.version := by
  unfold classify at hc
  split at hc
  · split at hc
    · cases hc; rfl
    · cases hc
    · cases hc
  · rename_i hb
    split at hc
    · rename_i hv
      exfalso
      simp only [Bool.and_eq_true, decide_eq_true_eq, Bool.or_eq_true] at hv
      rcases h with h | h
      · apply hb
        simp only [isMountBoundary, Bool.and_eq_true, decide_eq_true_eq, Bool.or_eq_true] at h
        simp only [Bool.and_eq_true, decide_eq_true_eq, Bool.or_eq_true]
        exact ⟨⟨h.1.2, h.2⟩, by omega⟩
      · have : isVersionLine line = true := by
          simp only [isVersionLine, Bool.and_eq_true, decide_eq_true_eq, Bool.or_eq_true]
          exact ⟨by omega, hv.1⟩
        rw [this] at h; cases h
    · cases hc; rfl

/-- C15, amended. The protocol version is not reset by a mount-boundary line:
processing a mount-boundary line, or any line that is not a version line,
leaves the protocol version as it was. -/
theorem version_kept (MatchString : String → String → Except String Bool)
    (n : NFSClient) (st : State) (line : List String)
    (h : isMountBoundary line = true ∨ isVersionLine line = false) :
    (processLine MatchString n st line).version = st.version := by
  cases hc : classify st line with
  | error e => simp [processLine, gate, hc]
  | ok st1 =>
    rw [processLine_version MatchString n st st1 line hc]
    exact classify_version_kept st st1 line hc h

theorem version_kept_witness :
    (processLine anchoredMatch ⟨false, [], []⟩
      ⟨"/a", "3", "srv:/a", false, [], none⟩
      ["device", "srv:/b", "mounted", "on", "/b", "with", "fstype", "nfs4"]).version = "3" :=
  version_kept anchoredMatch ⟨false, [], []⟩ ⟨"/a", "3", "srv:/a", false, [], none⟩
    ["device", "srv:/b", "mounted", "on", "/b", "with", "fstype", "nfs4"] (Or.inl rfl)

/-- C15 as stated fails: after the mount-boundary line of a second mount the
protocol version is still the "3" of the first mount, and the READ line of the
second mount, which has no version line of its own, is decoded with it. -/
theorem version_not_reset_counterexample :
    isMountBoundary ["device", "srv:/b", "mounted", "on", "/b", "with", "fstype", "nfs4"]
      = true ∧
    (processText anchoredMatch ⟨false, [], []⟩
      [["device", "srv:/a", "mounted", "on", "/a", "with", "fstype", "nfs"],
       ["RPC", "iostats", "version:", "1.0", "p/v:", "100003/3", "(nfs)"],
       ["device", "srv:/b", "mounted", "on", "/b", "with", "fstype", "nfs4"]]).version
      = "3" ∧
    (processText anchoredMatch ⟨false, [], []⟩
      [["device", "srv:/a", "mounted", "on", "/a", "with", "fstype", "nfs"],
       ["RPC", "iostats", "version:", "1.0", "p/v:", "100003/3", "(nfs)"],
       ["device", "srv:/b", "mounted", "on", "/b", "with", "fstype", "nfs4"],
       ["READ:", "10", "10", "0", "100", "200", "0", "5", "7"]]).acc =
      [⟨"nfsstat_read",
        [("read_ops", 10), ("read_retrans", 0), ("read_bytes", 300), ("read_rtt", 5),
         ("read_exe", 7)],
        [("mountpoint", "/b"), ("serverexport", "srv:/b")]⟩] :=
  ⟨rfl, rfl, rfl⟩

/-- C16, amended. Classification short-circuits: a line that satisfies both
the mount-boundary condition and the version-line condition gets the
mount-boundary update only (device = token[4], export = token[1], skip reset);
the protocol version is left as it was; the line is then offered to
`parseStat` unless the mount filter skips the new device. -/
theorem boundary_wins_over_version (MatchString : String → String → Except String Bool)
    (n : NFSClient) (st : State) (line : List String)
    (hb : isMountBoundary line = true) (_hv : isVersionLine line = true) :
    ∃ st2, gate MatchString n st line =
        .ok (st2, !filter MatchString n (line.getD 4 "") false) ∧
      st2.device = line.getD 4 "" ∧ st2.serverexport = line.getD 1 "" ∧
      st2.version = st.version ∧
      (processLine MatchString n st line).device = line.getD 4 "" ∧
      (processLine MatchString n st line).serverexport = line.getD 1 "" ∧
      (processLine MatchString n st line).version = st.version := by
  obtain ⟨st1, hc⟩ := classify_boundary_ok st line hb
  obtain ⟨hd, he, hs⟩ := classify_device st st1 line hc
  simp only [hb, if_true] at hd he hs
  have hver := classify_version_kept st st1 line hc (Or.inl hb)
  have hlen : decide (line.length > 0) = true := by
    simp only [isMountBoundary, Bool.and_eq_true, decide_eq_true_eq] at hb
    simp only [decide_eq_true_eq]; omega
  obtain ⟨pd, pe⟩ := processLine_ctx MatchString n st line
  simp only [hb, if_true] at pd pe
  refine ⟨{ st1 with skip := filter MatchString n st1.device st1.skip }, ?_, hd, he, hver,
    pd, pe, by rw [processLine_version MatchString n st st1 line hc]; exact hver⟩
  simp only [gate, hc, hlen, Bool.and_true, hd, hs]

theorem boundary_wins_over_version_witness :
    ∃ st2, gate anchoredMatch ⟨false, [], []⟩ initState
        ["device", "srv:/x", "fstype", "nfs", "/mnt", "100003/3", "(nfs)"] =
        .ok (st2, !filter anchoredMatch ⟨false, [], []⟩
          (["device", "srv:/x", "fstype", "nfs", "/mnt", "100003/3", "(nfs)"].getD 4 "") false) ∧
      st2.device = ["device", "srv:/x", "fstype", "nfs", "/mnt", "100003/3", "(nfs)"].getD 4 "" ∧
      st2.serverexport =
        ["device", "srv:/x", "fstype", "nfs", "/mnt", "100003/3", "(nfs)"].getD 1 "" ∧
      st2.version = initState.version ∧
      (processLine anchoredMatch ⟨false, [], []⟩ initState
        ["device", "srv:/x", "fstype", "nfs", "/mnt", "100003/3", "(nfs)"]).device =
        ["device", "srv:/x", "fstype", "nfs", "/mnt", "100003/3", "(nfs)"].getD 4 "" ∧
      (processLine anchoredMatch ⟨false, [], []⟩ initState
        ["device", "srv:/x", "fstype", "nfs", "/mnt", "100003/3", "(nfs)"]).serverexport =
        ["device", "srv:/x", "fstype", "nfs", "/mnt", "100003/3", "(nfs)"].getD 1 "" ∧
      (processLine anchoredMatch ⟨false, [], []⟩ initState
        ["device", "srv:/x", "fstype", "nfs", "/mnt", "100003/3", "(nfs)"]).version =
        initState.version :=
  boundary_wins_over_version anchoredMatch ⟨false, [], []⟩ initState
    ["device", "srv:/x", "fstype", "nfs", "/mnt", "100003/3", "(nfs)"] rfl rfl

/-- C16 as stated fails: on a line that is both a mount-boundary line and a
version line with token[5] = `100003/4`, the device and export are updated but
the protocol version stays "3"; the line is then decoded as a READ line. -/
theorem both_updates_counterexample :
    isMountBoundary ["READ:", "srv:/y", "fstype", "nfs4", "/data", "100003/4", "(nfs4)", "8", "9"]
      = true ∧
    isVersionLine ["READ:", "srv:/y", "fstype", "nfs4", "/data", "100003/4", "(nfs4)", "8", "9"]
      = true ∧
    processLine anchoredMatch ⟨false, [], []⟩ ⟨"/a", "3", "srv:/a", false, [], none⟩
      ["READ:", "srv:/y", "fstype", "nfs4", "/data", "100003/4", "(nfs4)", "8", "9"] =
      ⟨"/data", "3", "srv:/y", false,
        [⟨"nfsstat_read",
          [("read_ops", 0), ("read_retrans", 0), ("read_bytes", 0), ("read_rtt", 8),
           ("read_exe", 9)],
          [("mountpoint", "/data"), ("serverexport", "srv:/y")]⟩], none⟩ :=
  ⟨rfl, rfl, rfl⟩

theorem xprt_names (line : List String) (nline : List Int) (tags : List (String × String))
    (fields : Fields) (out : List Record) (h : xprt line nline tags fields = .ok out) :
    ∀ r ∈ out, isStandalone r.name = true := by
  unfold xprt at h
  split at h
  · cases h
  · split at h
    · split at h
      · split at h
        · cases h
        · cases h; simp [isStandalone]
      · cases h; simp
    · split at h
      · split at h
        · split at h
          · cases h
          · cases h; simp [isStandalone]
        · cases h; simp
      · cases h; simp

theorem derived_ok (pre : String) (n : List Int) (tags : List (String × String))
    (fields : Fields) (h : 8 ≤ n.length) :
    ∃ f out, derived pre n tags fields = .ok (f, out) := by
  simp only [derived, index_getD n 0 (by omega), index_getD n 1 (by omega),
    index_getD n 3 (by omega), index_getD n 4 (by omega), index_getD n 6 (by omega),
    index_getD n 7 (by omega), bind, Except.bind, pure, Except.pure]
  exact ⟨_, _, rfl⟩

theorem readWrite_ok (first : String) (n : List Int) (tags : List (String × String))
    (fields : Fields) : ∃ f out, readWrite first n tags fields = .ok (f, out) := by
  unfold readWrite
  split
  · rename_i h
    simp only [Bool.and_eq_true, decide_eq_true_eq] at h
    split
    · exact derived_ok _ _ _ _ (by omega)
    · split
      · exact derived_ok _ _ _ _ (by omega)
      · exact ⟨_, _, rfl⟩
  · exact ⟨_, _, rfl⟩

/-- The operations branch never panics, and emits operation records only. -/
theorem operations_ok (version first : String) (n : List Int) (fullstat : Bool)
    (tags : List (String × String)) (fields : Fields) :
    ∃ out, operations version first n fullstat tags fields = .ok out ∧
      ∀ r ∈ out, isOperation r.name = true := by
  obtain ⟨f, o1, hrw⟩ := readWrite_ok first n tags fields
  have h1 : ∀ r ∈ o1, isOperation r.name = true := by
    intro r hr
    rcases (readWrite_names _ _ _ _ _ _ hrw r hr).1 with h | h <;> simp [isOperation, h]
  obtain ⟨o3, h3, hn3, _⟩ := opsRecord_ok nfs3Fields first n tags f
  obtain ⟨o4, h4, hn4, _⟩ := opsRecord_ok nfs4Fields first n tags f
  have hops : ∀ (o : List Record), (∀ r ∈ o, r.name = "nfs_ops") →
      ∀ r ∈ o1 ++ o, isOperation r.name = true := by
    intro o ho r hr
    rcases List.mem_append.mp hr with h | h
    · exact h1 r h
    · simp [isOperation, ho r h]
  unfold operations
  rw [hrw]
  simp only [h3, h4]
  split
  · exact ⟨_, rfl, hops o3 hn3⟩
  · split
    · exact ⟨_, rfl, hops o4 hn4⟩
    · exact ⟨_, rfl, h1⟩

theorem standalone_operation (name : String) (h : isOperation name = true) :
    isStandalone name = false := by
  simp only [isOperation, Bool.or_eq_true, decide_eq_true_eq] at h
  rcases h with (h | h) | h <;> subst h <;> rfl

/-- The two kinds of `parseStat` call: either the line is handled before the
protocol version is looked at, with the same result for every version and
standalone records only; or it goes to the version test, never panics, and
emits operation records only, none unless the version is "3" or "4". -/
theorem parseStat_shape (mountpoint serverexport : String) (line : List String)
    (fullstat : Bool) :
    (∃ res, (∀ v, parseStat mountpoint serverexport v line fullstat = res) ∧
      ∀ out, res = .ok out → ∀ r ∈ out, isStandalone r.name = true) ∨
    (∀ v, ∃ out, parseStat mountpoint serverexport v line fullstat = .ok out ∧
      (∀ r ∈ out, isOperation r.name = true) ∧ (v ≠ "3" → v ≠ "4" → out = [])) := by
  cases line with
  | nil => exact Or.inl ⟨_, fun v => rfl, fun out h => by cases h⟩
  | cons tok rest =>
    have hconv : convert (tok :: rest) = .ok (rest.map fun l => (ParseInt l).1) := rfl
    have hidx : index (tok :: rest) 0 = .ok tok := by simp [index]
    generalize (rest.map fun l => (ParseInt l).1) = n at hconv
    unfold parseStat
    simp only [hconv, hidx]
    split
    · refine Or.inl ⟨_, fun v => rfl, ?_⟩
      intro out h
      split at h
      · cases h
      · cases h; simp [isStandalone]
    · split
      · refine Or.inl ⟨_, fun v => rfl, ?_⟩
        intro out h
        split at h
        · cases h
        · cases h; simp [isStandalone]
      · split
        · exact Or.inl ⟨_, fun v => rfl, fun out h => xprt_names _ _ _ _ _ h⟩
        · refine Or.inr ?_
          intro v
          by_cases hv : v = "3" ∨ v = "4"
          · rw [if_pos hv]
            obtain ⟨out, ho, hn⟩ := operations_ok v (replaceColon tok) n fullstat
              [("mountpoint", mountpoint), ("serverexport", serverexport)] []
            exact ⟨out, ho, hn, fun h3 h4 => by rcases hv with h | h <;> contradiction⟩
          · rw [if_neg hv]
            exact ⟨[], rfl, by simp, fun _ _ => rfl⟩

/-- C17. Operation categories are gated on the protocol version and the
standalone categories are not: when the version is neither "3" nor "4"
`parseStat` emits no `nfsstat_read`, `nfsstat_write` or `nfs_ops` record; and
for any two versions the records named `nfs_events`, `nfs_bytes`,
`nfs_xprt_tcp` or `nfs_xprt_udp` it emits are the same, contents included, and
it panics for the one exactly when it panics for the other. -/
theorem version_gating (mountpoint serverexport : String) (line : List String)
    (fullstat : Bool) (v1 v2 : String) :
    (v1 ≠ "3" → v1 ≠ "4" →
      ∀ r ∈ emitted (parseStat mountpoint serverexport v1 line fullstat),
        r.name ≠ "nfsstat_read" ∧ r.name ≠ "nfsstat_write" ∧ r.name ≠ "nfs_ops") ∧
    (emitted (parseStat mountpoint serverexport v1 line fullstat)).filter
        (fun r => isStandalone r.name) =
      (emitted (parseStat mountpoint serverexport v2 line fullstat)).filter
        (fun r => isStandalone r.name) ∧
    ((∃ e, parseStat mountpoint serverexport v1 line fullstat = .error e) ↔
      (∃ e, parseStat mountpoint serverexport v2 line fullstat = .error e)) := by
  rcases parseStat_shape mountpoint serverexport line fullstat with
    ⟨res, hres, hnames⟩ | hop
  · refine ⟨?_, by rw [hres v1, hres v2], by rw [hres v1, hres v2]⟩
    intro _ _ r hr
    rw [hres v1] at hr
    cases res with
    | error e => simp [emitted] at hr
    | ok out =>
      have hs := hnames out rfl r hr
      simp only [isStandalone, Bool.or_eq_true, decide_eq_true_eq] at hs
      rcases hs with ((h | h) | h) | h <;> rw [h] <;> decide
  · obtain ⟨o1, h1, n1, e1⟩ := hop v1
    obtain ⟨o2, h2, n2, _⟩ := hop v2
    have hf : ∀ (o : List Record), (∀ r ∈ o, isOperation r.name = true) →
        o.filter (fun r => isStandalone r.name) = [] := by
      intro o ho
      rw [List.filter_eq_nil_iff]
      intro r hr
      simp [standalone_operation r.name (ho r hr)]
    refine ⟨?_, ?_, ?_⟩
    · intro h3 h4 r hr
      rw [h1, e1 h3 h4] at hr
      simp [emitted] at hr
    · rw [h1, h2]
      simp only [emitted]
      rw [hf o1 n1, hf o2 n2]
    · rw [h1, h2]
      simp

theorem xprt_first_token (tok1 tok2 : String) (rest : List String) (nline : List Int)
    (tags : List (String × String)) (fields : Fields) :
    xprt (tok1 :: rest) nline tags fields = xprt (tok2 :: rest) nline tags fields := by
  simp [xprt, index]

/-- C18, amended. The category used for dispatch is the first token with its
first colon removed, wherever that colon stands (the trailing colon, for a
token whose only colon is the last character), and the first token unchanged
when it has no colon: `parseStat` gives the same result for two first tokens
that agree once their first colon is removed. -/
theorem category_is_first_colon_removed :
    (∀ a b : List Char, ':' ∉ a → replaceColon ⟨a ++ ':' :: b⟩ = ⟨a ++ b⟩) ∧
    (∀ s : String, ':' ∉ s.data → replaceColon s = s) ∧
    (∀ (mountpoint serverexport version tok1 tok2 : String) (rest : List String)
      (fullstat : Bool), replaceColon tok1 = replaceColon tok2 →
      parseStat mountpoint serverexport version (tok1 :: rest) fullstat =
        parseStat mountpoint serverexport version (tok2 :: rest) fullstat) := by
  refine ⟨?_, ?_, ?_⟩
  · intro a b h
    simp only [replaceColon]
    rw [List.erase_append_right _ h, List.erase_cons_head]
  · intro s h
    simp only [replaceColon]
    rw [List.erase_of_not_mem h]
  · intro mp ex v tok1 tok2 rest fs h
    have hconv1 : convert (tok1 :: rest) = .ok (rest.map fun l => (ParseInt l).1) := rfl
    have hconv2 : convert (tok2 :: rest) = .ok (rest.map fun l => (ParseInt l).1) := rfl
    have hidx1 : index (tok1 :: rest) 0 = .ok tok1 := by simp [index]
    have hidx2 : index (tok2 :: rest) 0 = .ok tok2 := by simp [index]
    unfold parseStat
    simp only [hconv1, hconv2, hidx1, hidx2, h, List.length_cons,
      xprt_first_token tok1 tok2 rest]

/-- C18 as stated fails: the colon of `RE:AD` and of `:READ` is removed, and
both lines are decoded as READ lines. -/
theorem first_colon_counterexample :
    replaceColon "RE:AD" = "READ" ∧ replaceColon ":READ" = "READ" ∧
    parseStat "/mnt" "srv:/x" "3" ["RE:AD", "10", "10", "0", "100", "200", "0", "5", "7"] false =
      .ok [⟨"nfsstat_read",
        [("read_ops", 10), ("read_retrans", 0), ("read_bytes", 300), ("read_rtt", 5),
         ("read_exe", 7)],
        [("mountpoint", "/mnt"), ("serverexport", "srv:/x")]⟩] ∧
    parseStat "/mnt" "srv:/x" "3" [":READ", "10", "10", "0", "100", "200", "0", "5", "7"] false =
      .ok [⟨"nfsstat_read",
        [("read_ops", 10), ("read_retrans", 0), ("read_bytes", 300), ("read_rtt", 5),
         ("read_exe", 7)],
        [("mountpoint", "/mnt"), ("serverexport", "srv:/x")]⟩] :=
  ⟨rfl, rfl, rfl, rfl⟩

theorem opsRecord_length (table : List String) (first : String) (nline : List Int)
    (tags : List (String × String)) (fields : Fields) :
    ∃ ops, opsRecord table first nline tags fields = .ok ops ∧
      (∀ r ∈ ops, r.name = "nfs_ops") ∧
      ops.length = if inList table first = true ∧ nline.length ≤ 8 then 1 else 0 := by
  unfold opsRecord
  by_cases h : inList table first = true ∧ nline.length ≤ 8
  · have hc : (inList table first && decide (nline.length ≤ nfsopFields.length)) = true := by
      simp only [Bool.and_eq_true, decide_eq_true_eq]
      exact ⟨h.1, h.2⟩
    obtain ⟨f, hf⟩ := opsFill_ok first nline 0 fields (by simpa using h.2)
    rw [if_pos hc, hf, if_pos h]
    exact ⟨_, rfl, by simp, rfl⟩
  · have hc : ¬ (inList table first && decide (nline.length ≤ nfsopFields.length)) = true := by
      simp only [Bool.and_eq_true, decide_eq_true_eq]
      exact h
    rw [if_neg hc, if_neg h]
    exact ⟨[], rfl, by simp, rfl⟩

theorem readWrite_length (first : String) (n : List Int) (tags : List (String × String)) :
    ∃ f o1, readWrite first n tags [] = .ok (f, o1) ∧
      (∀ r ∈ o1, r.name = "nfsstat_read" ∨ r.name = "nfsstat_write") ∧
      o1.length = if (first = "READ" ∨ first = "WRITE") ∧ 8 ≤ n.length then 1 else 0 := by
  obtain ⟨f, o1, h⟩ := readWrite_ok first n tags []
  refine ⟨f, o1, h, fun r hr => (readWrite_names _ _ _ _ _ _ h r hr).1, ?_⟩
  by_cases hR : first = "READ"
  · subst hR
    rw [readWrite_READ] at h
    by_cases h8 : 8 ≤ n.length
    · rw [if_pos h8] at h; cases h; simp [h8]
    · rw [if_neg h8] at h; cases h; simp [h8]
  · by_cases hW : first = "WRITE"
    · subst hW
      rw [readWrite_WRITE] at h
      by_cases h8 : 8 ≤ n.length
      · rw [if_pos h8] at h; cases h; simp [h8]
      · rw [if_neg h8] at h; cases h; simp [h8]
    · unfold readWrite at h
      simp only [hR, hW, if_false, ite_self] at h
      cases h
      simp [hR, hW]

/-- The operations branch from the empty field map: at most one derived record
followed by at most one `nfs_ops` record, and when each of them is there. -/
theorem operations_count (version first : String) (n : List Int) (fullstat : Bool)
    (tags : List (String × String)) :
    ∃ o1 ops, operations version first n fullstat tags [] = .ok (o1 ++ ops) ∧
      (∀ r ∈ o1, r.name = "nfsstat_read" ∨ r.name = "nfsstat_write") ∧
      (∀ r ∈ ops, r.name = "nfs_ops") ∧
      o1.length = (if (first = "READ" ∨ first = "WRITE") ∧ 8 ≤ n.length then 1 else 0) ∧
      ops.length =
        (if fullstat = true ∧ n.length ≤ 8 ∧
            ((version = "3" ∧ inList nfs3Fields first = true) ∨
             (version = "4" ∧ inList nfs4Fields first = true)) then 1 else 0) := by
  obtain ⟨f, o1, hrw, hn1, hl1⟩ := readWrite_length first n tags
  obtain ⟨o3, h3, hn3, hl3⟩ := opsRecord_length nfs3Fields first n tags f
  obtain ⟨o4, h4, hn4, hl4⟩ := opsRecord_length nfs4Fields first n tags f
  unfold operations
  rw [hrw]
  simp only [h3, h4]
  by_cases c3 : (fullstat && decide (version = "3")) = true
  · rw [if_pos c3]
    simp only [Bool.and_eq_true, decide_eq_true_eq] at c3
    refine ⟨o1, o3, rfl, hn1, hn3, hl1, ?_⟩
    rw [hl3]
    have h34 : ¬ version = "4" := by rw [c3.2]; decide
    simp only [c3.1, c3.2, h34, true_and, false_and, or_false]
    by_cases hi : inList nfs3Fields first = true <;> by_cases hl : n.length ≤ 8 <;>
      simp [hi, hl]
  · rw [if_neg c3]
    simp only [Bool.and_eq_true, decide_eq_true_eq] at c3
    by_cases c4 : (fullstat && decide (version = "4")) = true
    · rw [if_pos c4]
      simp only [Bool.and_eq_true, decide_eq_true_eq] at c4
      refine ⟨o1, o4, rfl, hn1, hn4, hl1, ?_⟩
      rw [hl4]
      have h43 : ¬ version = "3" := by rw [c4.2]; decide
      simp only [c4.1, c4.2, h43, true_and, false_and, false_or]
      by_cases hi : inList nfs4Fields first = true <;> by_cases hl : n.length ≤ 8 <;>
        simp [hi, hl]
    · rw [if_neg c4]
      simp only [Bool.and_eq_true, decide_eq_true_eq] at c4
      refine ⟨o1, [], by simp, hn1, by simp, hl1, ?_⟩
      have : ¬ (fullstat = true ∧ n.length ≤ 8 ∧
          ((version = "3" ∧ inList nfs3Fields first = true) ∨
           (version = "4" ∧ inList nfs4Fields first = true))) := by
        rintro ⟨hf, _, (⟨hv, _⟩ | ⟨hv, _⟩)⟩
        · exact c3 ⟨hf, hv⟩
        · exact c4 ⟨hf, hv⟩
      rw [if_neg this]; rfl

theorem xprt_emitted_le (line : List String) (nline : List Int)
    (tags : List (String × String)) (fields : Fields) :
    (emitted (xprt line nline tags fields)).length ≤ 1 := by
  unfold xprt
  split
  · simp [emitted]
  · split
    · split
      · split <;> simp [emitted]
      · simp [emitted]
    · split
      · split
        · split <;> simp [emitted]
        · simp [emitted]
      · simp [emitted]

/-- Where a `parseStat` call on a non-empty line ends up: in one of the three
standalone branches or past the version test with at most one record, or in
the operations branch. -/
theorem parseStat_branch (mountpoint serverexport version tok : String)
    (rest : List String) (fullstat : Bool) :
    ((emitted (parseStat mountpoint serverexport version (tok :: rest) fullstat)).length ≤ 1 ∧
      (replaceColon tok = "events" ∨ replaceColon tok = "bytes" ∨ replaceColon tok = "xprt" ∨
        ¬ (version = "3" ∨ version = "4"))) ∨
    ((version = "3" ∨ version = "4") ∧
      parseStat mountpoint serverexport version (tok :: rest) fullstat =
        operations version (replaceColon tok) (rest.map fun l => (ParseInt l).1) fullstat
          [("mountpoint", mountpoint), ("serverexport", serverexport)] []) := by
  have hconv : convert (tok :: rest) = .ok (rest.map fun l => (ParseInt l).1) := rfl
  have hidx : index (tok :: rest) 0 = .ok tok := by simp [index]
  unfold parseStat
  simp only [hconv, hidx]
  split
  · rename_i h
    simp only [Bool.and_eq_true, decide_eq_true_eq] at h
    refine Or.inl ⟨?_, Or.inl h.1.2⟩
    split <;> simp [emitted]
  · split
    · rename_i h
      simp only [Bool.and_eq_true, decide_eq_true_eq] at h
      refine Or.inl ⟨?_, Or.inr (Or.inl h.1.2)⟩
      split <;> simp [emitted]
    · split
      · rename_i h
        simp only [Bool.and_eq_true, decide_eq_true_eq] at h
        exact Or.inl ⟨xprt_emitted_le _ _ _ _, Or.inr (Or.inr (Or.inl h.1.2))⟩
      · split
        · rename_i hv
          exact Or.inr ⟨hv, rfl⟩
        · rename_i hv
          exact Or.inl ⟨by simp [emitted], Or.inr (Or.inr (Or.inr hv))⟩

/-- C19. For every line, version and flag value `parseStat` emits at most two
records; it emits two if and only if the full-statistics flag is set, the
version is "3" or "4", the category is READ or WRITE and the line has exactly 8
numeric tokens; the two are then the `nfsstat_read` or `nfsstat_write` record
followed by the `nfs_ops` record. Every other line gives zero or one. -/
theorem parseStat_record_count (mountpoint serverexport version : String)
    (line : List String) (fullstat : Bool) :
    (emitted (parseStat mountpoint serverexport version line fullstat)).length ≤ 2 ∧
    ((emitted (parseStat mountpoint serverexport version line fullstat)).length = 2 ↔
      fullstat = true ∧ (version = "3" ∨ version = "4") ∧
        ∃ tok rest, line = tok :: rest ∧
          (replaceColon tok = "READ" ∨ replaceColon tok = "WRITE") ∧ rest.length = 8) ∧
    ((emitted (parseStat mountpoint serverexport version line fullstat)).length = 2 →
      ∃ r1 r2, emitted (parseStat mountpoint serverexport version line fullstat) = [r1, r2] ∧
        (r1.name = "nfsstat_read" ∨ r1.name = "nfsstat_write") ∧ r2.name = "nfs_ops") := by
  cases line with
  | nil =>
    have h : emitted (parseStat mountpoint serverexport version [] fullstat) = [] := rfl
    rw [h]
    simp
  | cons tok rest =>
    rcases parseStat_branch mountpoint serverexport version tok rest fullstat with
      ⟨hle, hcat⟩ | ⟨hv, hop⟩
    · refine ⟨by omega, ⟨fun h => by omega, ?_⟩, fun h => by omega⟩
      rintro ⟨_, hv, tok1, rest1, heq, hrw, _⟩
      simp only [List.cons.injEq] at heq
      obtain ⟨h1, _⟩ := heq
      subst h1
      rcases hcat with h | h | h | h
      · rcases hrw with h2 | h2 <;> rw [h] at h2 <;> exact absurd h2 (by decide)
      · rcases hrw with h2 | h2 <;> rw [h] at h2 <;> exact absurd h2 (by decide)
      · rcases hrw with h2 | h2 <;> rw [h] at h2 <;> exact absurd h2 (by decide)
      · exact absurd hv h
    · obtain ⟨o1, ops, ho, hn1, hn2, hl1, hl2⟩ := operations_count version (replaceColon tok)
        (rest.map fun l => (ParseInt l).1) fullstat
        [("mountpoint", mountpoint), ("serverexport", serverexport)]
      rw [hop, ho]
      simp only [emitted, List.length_append, List.length_map] at hl1 hl2 ⊢
      have b1 : o1.length ≤ 1 := by rw [hl1]; split <;> omega
      have b2 : ops.length ≤ 1 := by rw [hl2]; split <;> omega
      refine ⟨by omega, ⟨?_, ?_⟩, ?_⟩
      · intro h
        have e1 : o1.length = 1 := by omega
        have e2 : ops.length = 1 := by omega
        rw [hl1] at e1
        rw [hl2] at e2
        split at e1
        · rename_i c1
          split at e2
          · rename_i c2
            exact ⟨c2.1, hv, tok, rest, rfl, c1.1, by omega⟩
          · cases e2
        · cases e1
      · rintro ⟨hf, _, tok1, rest1, heq, hrw, hlen⟩
        simp only [List.cons.injEq] at heq
        obtain ⟨h1, h2⟩ := heq
        subst h1; subst h2
        have i3 : inList nfs3Fields (replaceColon tok) = true := by
          rcases hrw with h | h <;> rw [h] <;> rfl
        have i4 : inList nfs4Fields (replaceColon tok) = true := by
          rcases hrw with h | h <;> rw [h] <;> rfl
        have hcond : (version = "3" ∧ inList nfs3Fields (replaceColon tok) = true) ∨
            (version = "4" ∧ inList nfs4Fields (replaceColon tok) = true) := by
          rcases hv with h | h
          · exact Or.inl ⟨h, i3⟩
          · exact Or.inr ⟨h, i4⟩
        rw [hl1, hl2, if_pos ⟨hrw, by omega⟩, if_pos ⟨hf, by omega, hcond⟩]
      · intro h
        have e1 : o1.length = 1 := by omega
        have e2 : ops.length = 1 := by omega
        obtain ⟨r1, hr1⟩ := List.length_eq_one.mp e1
        obtain ⟨r2, hr2⟩ := List.length_eq_one.mp e2
        subst hr1; subst hr2
        exact ⟨r1, r2, rfl, hn1 r1 (List.mem_singleton.mpr rfl),
          hn2 r2 (List.mem_singleton.mpr rfl)⟩


end Nfsclient
